import Mathlib

/-!
Verification development for the `sfu` relay server.

Shallow embedding of `src/network/protocol.h` and `src/network/protocol.cpp`
(the packet codec) and of `src/server.cpp` (room directory, control-channel
handler, relay handler).  The stream operators of Qt are modelled after their
documented behaviour (Qt 5.15 sources for the corner cases).

Conventions of the embedding:

* a byte is a `Nat` below 256, a byte sequence (`QByteArray`, the contents of a
  `QDataStream`) is a `List Nat`;
* fixed-width unsigned integers are `Nat`s; a write keeps the value modulo
  `256 ^ width`, exactly as the C++ conversion does;
* a `QDataStream` opened for reading on a `QByteArray` is the list of bytes not
  yet consumed.  Its status flag is never inspected by the program and is left
  out;
* `QTcpSocket*` handles and `QHostAddress` values are opaque identities;
* the `std::unordered_map` of rooms is the list of its entries in iteration
  order.  Statements about one handler call hold for every order; runs of the
  server (`Reachable`) may change the order at any point.
-/

namespace Sfu

/-! ## Byte streams (the behaviour of `QDataStream` the program relies on) -/

abbrev Bytes := List Nat

/-- Big-endian encoding of `v` on `w` bytes (`QDataStream` writes integers in
big-endian order by default).  Only `v % 256 ^ w` is representable. -/
def beBytes : Nat → Nat → Bytes
  | 0, _ => []
  | w + 1, v => (v / 256 ^ w) % 256 :: beBytes w v

/-- Value of a big-endian byte sequence. -/
def beValue (bs : Bytes) : Nat :=
  bs.foldl (fun acc b => acc * 256 + b) 0

/-- Model of `QDataStream::readBlock`: hands over the `n` requested bytes, or what is
left of the device when fewer remain. -/
def readBlock (n : Nat) (s : Bytes) : Bytes × Bytes :=
  (s.take n, s.drop n)

/-- Model of `operator>>` for an unsigned integer of `w` bytes: the target is zeroed
first and stays zero when the read comes up short. -/
def readUInt (w : Nat) (s : Bytes) : Nat × Bytes :=
  let r := readBlock w s
  if r.1.length = w then (beValue r.1, r.2) else (0, r.2)

/-- The `static_cast<int>` of an unsigned quantity (32-bit two's complement). -/
def toInt32 (n : Nat) : Int :=
  if n % 2 ^ 32 < 2 ^ 31 then ((n % 2 ^ 32 : Nat) : Int)
  else ((n % 2 ^ 32 : Nat) : Int) - 2 ^ 32

/-- Model of `QDataStream::writeRawData(data, len)`: the device refuses a negative
length and writes nothing. -/
def writeRawData (data : Bytes) (len : Int) : Bytes :=
  if len < 0 then [] else data.take len.toNat

/-- Model of `QDataStream::readRawData(buf, len)`: overwrites the front of `buf` with
the bytes obtained; a negative length reads nothing. -/
def readRawData (buf : Bytes) (len : Int) (s : Bytes) : Bytes × Bytes :=
  if len < 0 then (buf, s)
  else
    let r := readBlock len.toNat s
    (r.1 ++ buf.drop r.1.length, r.2)

/-- Model of `QDataStream::writeBytes(data, len)` with `len` an unsigned 32-bit count. -/
def writeBytes (data : Bytes) (len : Nat) : Bytes :=
  beBytes 4 len ++ (if len = 0 then [] else writeRawData data (toInt32 len))

/-! ## `QString` on a data stream -/

/-- A `QString`: either the null string or a sequence of UTF-16 code units. -/
inductive QString where
  | null : QString
  | str (units : List Nat) : QString
deriving DecidableEq, Repr

/-- UTF-16 code units as big-endian byte pairs. -/
def unitsToBytes : List Nat → Bytes
  | [] => []
  | u :: us => beBytes 2 u ++ unitsToBytes us

/-- Big-endian byte pairs back to UTF-16 code units. -/
def unitsOfBytes : Bytes → List Nat
  | hi :: lo :: rest => (hi * 256 + lo) :: unitsOfBytes rest
  | _ => []

/-- Model of `operator<<(QDataStream&, const QString&)`: the null string is the marker
`0xffffffff`, any other string its byte length followed by its code units. -/
def QString.toBytes : QString → Bytes
  | .null => beBytes 4 0xffffffff
  | .str units => writeBytes (unitsToBytes units) ((2 * units.length) % 2 ^ 32)

/-- Model of `operator>>(QDataStream&, QString&)`: an odd byte count or a short read
clears the string; a short read drains the device. -/
def QString.fromBytes (s : Bytes) : QString × Bytes :=
  let r := readUInt 4 s
  if r.1 = 0xffffffff then (.null, r.2)
  else if 0 < r.1 then
    if r.1 % 2 = 1 then (.null, r.2)
    else if r.1 ≤ r.2.length then (.str (unitsOfBytes (r.2.take r.1)), r.2.drop r.1)
    else (.null, [])
  else (.str [], r.2)

/-! ## `src/network/protocol.h` -/

/-- Values of `enum class Command : uint16_t`. -/
def Command.CREATE_ROOM : Nat := 0
def Command.JOIN_ROOM : Nat := 1
def Command.VOICE_MSG : Nat := 2
def Command.ACK : Nat := 3

/-- Values of `enum class Status : uint8_t`. -/
def Status.OK : Nat := 0
def Status.FAIL : Nat := 1

/-- Value of `enum class Version : uint8_t`. -/
def Version.V1 : Nat := 0

/-- The `struct Header`.  The enumerations are kept as their underlying integers:
`Header::fromBytes` casts whatever integer arrives into them. -/
structure Header where
  version : Nat
  command : Nat
  sequenceId : Nat
  bodySize : Nat
deriving DecidableEq, Repr

structure CreateRoomBody where
  roomId : Nat
deriving DecidableEq, Repr

structure JoinRoomBody where
  roomId : Nat
  name : QString
deriving DecidableEq, Repr

/-- The `struct VoiceMessageBody`.  `protocol.h` declares `timestamp` and
`samples`; `server.cpp` line 229 assigns `msg.senderId`, so the record the
server works on carries that field too.  `protocol.cpp` neither writes nor
reads it. -/
structure VoiceMessageBody where
  timestamp : Nat
  senderId : Nat
  samples : Bytes
deriving DecidableEq, Repr

structure AckBody where
  originalSequenceId : Nat
  status : Nat
deriving DecidableEq, Repr

/-- The variant `using Body = std::variant<...>`. -/
inductive Body where
  | createRoom (b : CreateRoomBody)
  | joinRoom (b : JoinRoomBody)
  | voiceMessage (b : VoiceMessageBody)
  | ack (b : AckBody)
deriving DecidableEq, Repr

structure Packet where
  header : Header
  body : Body
deriving DecidableEq, Repr

/-- Values of the fields that `Header h;` and `VoiceMessageBody b;` leave
uninitialised and that no decoding step assigns. -/
structure Indeterminate where
  bodySize : Nat
  senderId : Nat
deriving DecidableEq, Repr

/-- Outcome of running a routine: it returns a value, or control runs into
`Q_UNREACHABLE()` (an assertion failure in a debug build, undefined behaviour
otherwise), or `std::get` is applied to a variant holding another alternative
and throws.  The code has no other way to report a failure. -/
inductive Run (α : Type) where
  | returns (a : α) : Run α
  | hitUnreachable : Run α
  | badVariantAccess : Run α
deriving DecidableEq, Repr

/-! ## `src/network/protocol.cpp` -/

/-- The function `bodyFromBytes(command, stream)`. -/
def bodyFromBytes (u : Indeterminate) (command : Nat) (s : Bytes) : Run (Body × Bytes) :=
  if command = Command.CREATE_ROOM then
    let r := readUInt 8 s
    .returns (.createRoom { roomId := r.1 }, r.2)
  else if command = Command.JOIN_ROOM then
    let r := readUInt 8 s
    let n := QString.fromBytes r.2
    .returns (.joinRoom { roomId := r.1, name := n.1 }, n.2)
  else if command = Command.VOICE_MSG then
    let t := readUInt 8 s
    let size := readUInt 4 t.2
    let raw := readRawData (List.replicate size.1 0) (toInt32 size.1) size.2
    .returns (.voiceMessage { timestamp := t.1, senderId := u.senderId, samples := raw.1 }, raw.2)
  else if command = Command.ACK then
    let o := readUInt 4 s
    let st := readUInt 1 o.2
    .returns (.ack { originalSequenceId := o.1, status := st.1 }, st.2)
  else .hitUnreachable

/-- The function `bodyToBytes(body, stream)`: the bytes appended to the stream. -/
def bodyToBytes : Body → Bytes
  | .createRoom b => beBytes 8 b.roomId
  | .joinRoom b => beBytes 8 b.roomId ++ b.name.toBytes
  | .voiceMessage b =>
      beBytes 8 b.timestamp ++ beBytes 4 b.samples.length
        ++ writeRawData b.samples (toInt32 b.samples.length)
  | .ack b => beBytes 4 b.originalSequenceId ++ beBytes 1 b.status

/-- The function `Header::fromBytes(stream)`. -/
def Header.fromBytes (u : Indeterminate) (s : Bytes) : Header × Bytes :=
  let v := readUInt 1 s
  let c := readUInt 2 v.2
  let q := readUInt 4 c.2
  ({ version := v.1, command := c.1, sequenceId := q.1, bodySize := u.bodySize }, q.2)

/-- The function `Header::toBytes(stream)`: the bytes appended. -/
def Header.toBytes (h : Header) : Bytes :=
  beBytes 1 h.version ++ beBytes 2 h.command ++ beBytes 4 h.sequenceId

/-- The function `Packet::fromBytes(stream)`. -/
def Packet.fromBytes (u : Indeterminate) (s : Bytes) : Run (Packet × Bytes) :=
  let h := Header.fromBytes u s
  match bodyFromBytes u h.1.command h.2 with
  | .returns b => .returns ({ header := h.1, body := b.1 }, b.2)
  | .hitUnreachable => .hitUnreachable
  | .badVariantAccess => .badVariantAccess

/-- The function `Packet::toBytes(stream)`: the bytes appended. -/
def Packet.toBytes (p : Packet) : Bytes :=
  p.header.toBytes ++ bodyToBytes p.body

/-! ## Well-formed packets -/

/-- Command value that selects the body variant in `bodyFromBytes`. -/
def Body.command : Body → Nat
  | .createRoom _ => Command.CREATE_ROOM
  | .joinRoom _ => Command.JOIN_ROOM
  | .voiceMessage _ => Command.VOICE_MSG
  | .ack _ => Command.ACK

/-- The assignment `std::get<VoiceMessageBody>(packet.body).senderId = i`
(`server.cpp` line 229); the relay only performs it on a voice body. -/
def Body.withSenderId (i : Nat) : Body → Body
  | .voiceMessage b => .voiceMessage { b with senderId := i }
  | b => b

/-- A string whose code units are 16-bit and whose byte length `2 * n` is
accepted by `writeRawData` (it fits a non-negative `int`). -/
def QString.WF : QString → Prop
  | .null => True
  | .str units => (∀ x ∈ units, x < 65536) ∧ units.length < 2 ^ 30

/-- Field values lie in the range of their C++ types, and the sample count is
accepted by `writeRawData` (it fits a non-negative `int`). -/
def Body.WF : Body → Prop
  | .createRoom b => b.roomId < 2 ^ 64
  | .joinRoom b => b.roomId < 2 ^ 64 ∧ b.name.WF
  | .voiceMessage b => b.timestamp < 2 ^ 64 ∧ b.samples.length < 2 ^ 31
  | .ack b => b.originalSequenceId < 2 ^ 32 ∧ b.status < 2 ^ 8

/-- Header fields that are written lie in the range of their C++ types. -/
def Header.WF (h : Header) : Prop :=
  h.version < 2 ^ 8 ∧ h.command < 2 ^ 16 ∧ h.sequenceId < 2 ^ 32

/-- A packet whose written fields fit the wire format. -/
def Packet.WF (p : Packet) : Prop :=
  p.header.WF ∧ p.body.WF

instance (q : QString) : Decidable q.WF := by
  cases q <;> unfold QString.WF <;> infer_instance

instance (b : Body) : Decidable b.WF := by
  cases b <;> unfold Body.WF <;> infer_instance

instance (h : Header) : Decidable h.WF := by
  unfold Header.WF; infer_instance

instance (p : Packet) : Decidable p.WF := by
  unfold Packet.WF; infer_instance

/-! ## `src/server.cpp`: clients and rooms -/

/-- Identity of a `QTcpSocket*`. -/
abbrev Handle := Nat

/-- A `QHostAddress`; `none` is the default-constructed (null) address. -/
abbrev HostAddress := Option Nat

/-- The `struct Client`. -/
structure Client where
  tcp : Handle
  udpAddress : HostAddress
  udpPort : Nat
  id : Nat
deriving DecidableEq, Repr

def Client.hasUdpEndpoint (c : Client) : Bool :=
  c.udpPort != 0

/-- Test used by `findClientByAddress`, `findRoomForUdpClient` and the fan-out
loop: `member.udpAddress == address && member.udpPort == port`. -/
def Client.atEndpoint (address : HostAddress) (port : Nat) (c : Client) : Bool :=
  c.udpAddress == address && c.udpPort == port

/-- The `struct Room`. -/
structure Room where
  id : Nat
  members : List Client
deriving DecidableEq, Repr

def Room.addMember (r : Room) (client : Client) : Room :=
  { r with members := r.members ++ [client] }

/-- The erase-remove idiom of `Room::removeMember`: the members whose handle
is not `tcp` stay, in their relative order. -/
def Room.removeMember (r : Room) (tcp : Handle) : Room :=
  { r with members := r.members.filter (fun c => !(c.tcp == tcp)) }

/-- The `std::unordered_map<uint64_t, Room>`: its entries in iteration order,
which the standard leaves unspecified. -/
abbrev Rooms := List (Nat × Room)

/-- Lookup `rooms.find(roomId)`. -/
def Rooms.find (rooms : Rooms) (roomId : Nat) : Option Room :=
  match rooms with
  | [] => none
  | kr :: rest => if kr.1 = roomId then some kr.2 else Rooms.find rest roomId

/-- Overwrite of the entry of an existing key; the entry keeps its place. -/
def Rooms.replace (rooms : Rooms) (roomId : Nat) (room : Room) : Rooms :=
  match rooms with
  | [] => []
  | kr :: rest =>
    if kr.1 = roomId then (roomId, room) :: rest else kr :: Rooms.replace rest roomId room

/-- Assignment `rooms[roomId] = room`: overwrites the entry of that key, or
enters a new one.  A new entry is put first, where libstdc++ links a new node;
the standard leaves the place unspecified, and `Reachable` below lets the
iteration order change at any time. -/
def Rooms.assign (rooms : Rooms) (roomId : Nat) (room : Room) : Rooms :=
  match rooms.find roomId with
  | some _ => rooms.replace roomId room
  | none => (roomId, room) :: rooms

/-- In-place update through the iterator returned by `rooms.find(roomId)`. -/
def Rooms.modify (rooms : Rooms) (roomId : Nat) (f : Room → Room) : Rooms :=
  match rooms with
  | [] => []
  | kr :: rest =>
    if kr.1 = roomId then (kr.1, f kr.2) :: rest else kr :: Rooms.modify rest roomId f

/-- First member, in iteration order over rooms and members, that passes the
test: the value behind the pointer returned by the `find...` loops. -/
def Rooms.findMember (p : Client → Bool) : Rooms → Option Client
  | [] => none
  | kr :: rest =>
    match kr.2.members.find? p with
    | some c => some c
    | none => Rooms.findMember p rest

/-- Update of the first member passing the test within one member list. -/
def modifyFirstMember (p : Client → Bool) (f : Client → Client) : List Client → List Client
  | [] => []
  | c :: cs => if p c then f c :: cs else c :: modifyFirstMember p f cs

/-- Write through the pointer returned by a `find...` loop: the first member,
in iteration order, passing the test is updated in place. -/
def Rooms.modifyFirstMember (p : Client → Bool) (f : Client → Client) : Rooms → Rooms
  | [] => []
  | kr :: rest =>
    if kr.2.members.any p then
      (kr.1, { kr.2 with members := Sfu.modifyFirstMember p f kr.2.members }) :: rest
    else kr :: Rooms.modifyFirstMember p f rest

/-- The data members of `Server::Impl` that the handlers read and write.  The
`std::unordered_set` of pending handles is a list; its order is never
observed. -/
structure Impl where
  pending : List Handle
  rooms : Rooms
  nextClientId : Nat
deriving DecidableEq, Repr

/-- Erasure `pending.erase(tcp)`. -/
def pendingErase (pending : List Handle) (tcp : Handle) : List Handle :=
  pending.filter (fun h => !(h == tcp))

/-- Insertion `pending.insert(tcp)`. -/
def pendingInsert (pending : List Handle) (tcp : Handle) : List Handle :=
  if tcp ∈ pending then pending else tcp :: pending

def Impl.removeClient (d : Impl) (tcp : Handle) : Impl :=
  { d with
    pending := pendingErase d.pending tcp
    rooms := d.rooms.map (fun kr => (kr.1, kr.2.removeMember tcp)) }

def Impl.findClientByAddress (d : Impl) (address : HostAddress) (port : Nat) : Option Client :=
  d.rooms.findMember (Client.atEndpoint address port)

/-- Test of `findClientByTcpPeer`; `peer` gives `tcp->peerAddress()`. -/
def Client.unlearnedAt (peer : Handle → HostAddress) (address : HostAddress) (c : Client) :
    Bool :=
  peer c.tcp == address && !c.hasUdpEndpoint

def Impl.findClientByTcpPeer (peer : Handle → HostAddress) (d : Impl) (address : HostAddress) :
    Option Client :=
  d.rooms.findMember (Client.unlearnedAt peer address)

def Impl.findRoomForUdpClient (d : Impl) (address : HostAddress) (port : Nat) : Option Room :=
  (d.rooms.find? (fun kr => kr.2.members.any (Client.atEndpoint address port))).map (·.2)

def Impl.findRoomForClient (d : Impl) (tcp : Handle) : Option Room :=
  (d.rooms.find? (fun kr => kr.2.members.any (fun c => c.tcp == tcp))).map (·.2)

/-- A datagram handed to `udpSocket.writeDatagram`: data, address, port. -/
structure UdpWrite where
  data : Bytes
  address : HostAddress
  port : Nat
deriving DecidableEq, Repr

/-- A call of `tcp->write`: the socket and the bytes. -/
structure TcpWrite where
  tcp : Handle
  data : Bytes
deriving DecidableEq, Repr

def sendUdpPacket (client : Client) (data : Bytes) : List UdpWrite :=
  if !client.hasUdpEndpoint then []
  else [{ data := data, address := client.udpAddress, port := client.udpPort }]

/-- Bytes of a `uint32_t` in memory, as `tcp->write(&size, 4)` and
`tcp->peek(&packetSize, 4)` see them: host byte order, little-endian on the
usual targets. -/
def leBytes (w v : Nat) : Bytes :=
  (beBytes w v).reverse

def leValue (bs : Bytes) : Nat :=
  beValue bs.reverse

def sendPacket (tcp : Handle) (packet : Packet) : List TcpWrite :=
  let body := packet.toBytes
  let size := body.length % 2 ^ 32
  [{ tcp := tcp, data := leBytes 4 size }, { tcp := tcp, data := body }]

def sendAck (tcp : Handle) (sequenceId status : Nat) : List TcpWrite :=
  sendPacket tcp
    { header := { version := Version.V1, command := Command.ACK, sequenceId := 0, bodySize := 0 }
      body := .ack { originalSequenceId := sequenceId, status := status } }

/-- The packet that `sendAck` builds. -/
def ackOf (sequenceId status : Nat) : Packet :=
  { header := { version := Version.V1, command := Command.ACK, sequenceId := 0, bodySize := 0 }
    body := .ack { originalSequenceId := sequenceId, status := status } }

/-- The bytes that a sequence of writes puts on the connection, in order. -/
def wire : List TcpWrite → Bytes
  | [] => []
  | w :: ws => w.data ++ wire ws

/-- The function `Server::Impl::handlePacket(tcp, data)`: the new state and the
writes issued. -/
def Impl.handlePacket (u : Indeterminate) (d : Impl) (tcp : Handle) (data : Bytes) :
    Run (Impl × List TcpWrite) :=
  match Packet.fromBytes u data with
  | .hitUnreachable => .hitUnreachable
  | .badVariantAccess => .badVariantAccess
  | .returns (packet, _) =>
    if packet.header.command = Command.CREATE_ROOM then
      match packet.body with
      | .createRoom body =>
        .returns
          ({ pending := pendingErase d.pending tcp
             rooms := d.rooms.assign body.roomId
               { id := body.roomId
                 members := [{ tcp := tcp, udpAddress := none, udpPort := 0,
                               id := d.nextClientId }] }
             nextClientId := (d.nextClientId + 1) % 2 ^ 32 },
           sendAck tcp packet.header.sequenceId Status.OK)
      | _ => .badVariantAccess
    else if packet.header.command = Command.JOIN_ROOM then
      match packet.body with
      | .joinRoom body =>
        match d.rooms.find body.roomId with
        | none => .returns (d, sendAck tcp packet.header.sequenceId Status.FAIL)
        | some _ =>
          .returns
            ({ pending := pendingErase d.pending tcp
               rooms := d.rooms.modify body.roomId (fun r =>
                 r.addMember { tcp := tcp, udpAddress := none, udpPort := 0,
                               id := d.nextClientId })
               nextClientId := (d.nextClientId + 1) % 2 ^ 32 },
             sendAck tcp packet.header.sequenceId Status.OK)
      | _ => .badVariantAccess
    else .returns (d, [])

/-- The state of a freshly constructed `Server::Impl`. -/
def Impl.init : Impl :=
  { pending := [], rooms := [], nextClientId := 1 }

/-- The effect of a successful `Server::listen` on the directory:
`d->rooms[0] = Room { 0, {} }`. -/
def Impl.listen (d : Impl) : Impl :=
  { d with rooms := d.rooms.assign 0 { id := 0, members := [] } }

/-- The `newConnection` handler for one accepted socket: `pending.insert(tcp)`. -/
def Impl.newConnection (d : Impl) (tcp : Handle) : Impl :=
  { d with pending := pendingInsert d.pending tcp }

/-- The `disconnected` handler of a control connection: `removeClient(tcp)`. -/
def Impl.disconnected (d : Impl) (tcp : Handle) : Impl :=
  d.removeClient tcp

/-! ## `src/server.cpp`: the relay (datagram) handler -/

/-- A received `QNetworkDatagram`: `senderPort()` is an `int`. -/
structure Datagram where
  senderAddress : HostAddress
  senderPort : Int
  data : Bytes
deriving DecidableEq, Repr

/-- The value `static_cast<uint16_t>(datagram.senderPort())`. -/
def Datagram.port (g : Datagram) : Nat :=
  (g.senderPort % 65536).toNat

/-- The fan-out loop over `room->members` (lines 235-241). -/
def fanOut (senderAddress : HostAddress) (senderPort : Nat) (outData : Bytes) :
    List Client → List UdpWrite
  | [] => []
  | member :: rest =>
    if member.atEndpoint senderAddress senderPort then
      fanOut senderAddress senderPort outData rest
    else sendUdpPacket member outData ++ fanOut senderAddress senderPort outData rest

/-- Lines 214-241 of the datagram handler, once the sender `client` is known:
room lookup, decoding, stamping, re-encoding and fan-out. -/
def Impl.relay (u : Indeterminate) (d : Impl) (client : Client) (g : Datagram) :
    Run (Impl × List UdpWrite) :=
  match d.findRoomForUdpClient g.senderAddress g.port with
  | none => .returns (d, [])
  | some room =>
    match Packet.fromBytes u g.data with
    | .hitUnreachable => .hitUnreachable
    | .badVariantAccess => .badVariantAccess
    | .returns (packet, _) =>
      if packet.header.command ≠ Command.VOICE_MSG then .returns (d, [])
      else
        match packet.body with
        | .voiceMessage _ =>
          let stamped : Packet := { packet with body := packet.body.withSenderId client.id }
          .returns (d, fanOut g.senderAddress g.port stamped.toBytes room.members)
        | _ => .badVariantAccess

/-- The assignments `client->udpAddress = senderAddress; client->udpPort =
senderPort` (lines 205-206). -/
def Client.learn (address : HostAddress) (port : Nat) (c : Client) : Client :=
  { c with udpAddress := address, udpPort := port }

/-- Body of the `while (hasPendingDatagrams())` loop for one datagram (lines
196-241); `peer` gives `tcp->peerAddress()` of each control connection. -/
def Impl.handleDatagram (peer : Handle → HostAddress) (u : Indeterminate) (d : Impl)
    (g : Datagram) : Run (Impl × List UdpWrite) :=
  match d.findClientByAddress g.senderAddress g.port with
  | some client => d.relay u client g
  | none =>
    match d.findClientByTcpPeer peer g.senderAddress with
    | some client =>
      Impl.relay u
        { d with rooms := d.rooms.modifyFirstMember (Client.unlearnedAt peer g.senderAddress)
                            (Client.learn g.senderAddress g.port) }
        (client.learn g.senderAddress g.port) g
    | none => .returns (d, [])

/-- The `readyRead` handler of the datagram socket: every pending datagram in
turn. -/
def Impl.udpReadyRead (peer : Handle → HostAddress) (u : Indeterminate) (d : Impl) :
    List Datagram → Run (Impl × List UdpWrite)
  | [] => .returns (d, [])
  | g :: gs =>
    match d.handleDatagram peer u g with
    | .returns (d2, out) =>
      match Impl.udpReadyRead peer u d2 gs with
      | .returns (d3, out2) => .returns (d3, out ++ out2)
      | .hitUnreachable => .hitUnreachable
      | .badVariantAccess => .badVariantAccess
    | .hitUnreachable => .hitUnreachable
    | .badVariantAccess => .badVariantAccess

/-! ## `src/server.cpp`: framing on the control channel -/

/-- The framing part of the `readyRead` handler of a control connection (lines
253-265) on the bytes buffered by the socket: the payload handed to
`handlePacket`, if any, and the bytes left in the socket. -/
def readFrame (buffer : Bytes) : Option Bytes × Bytes :=
  if buffer.length < 4 then (none, buffer)
  else
    let packetSize := leValue (buffer.take 4)
    if buffer.length < 4 + packetSize then (none, buffer)
    else (some ((buffer.drop 4).take packetSize), (buffer.drop 4).drop packetSize)

/-- The `readyRead` handler of a control connection (lines 252-268). -/
def Impl.tcpReadyRead (u : Indeterminate) (d : Impl) (tcp : Handle) (buffer : Bytes) :
    Run (Impl × Bytes × List TcpWrite) :=
  match readFrame buffer with
  | (none, left) => .returns (d, left, [])
  | (some data, left) =>
    match d.handlePacket u tcp data with
    | .returns (d2, out) => .returns (d2, left, out)
    | .hitUnreachable => .hitUnreachable
    | .badVariantAccess => .badVariantAccess

/-- Successive arrivals on one control connection: each read appends its bytes
to the socket buffer and `readyRead` is emitted once.  Result: the payloads
handed to `handlePacket`, in order, and the bytes left in the socket. -/
def deliver (buffer : Bytes) : List Bytes → List Bytes × Bytes
  | [] => ([], buffer)
  | chunk :: chunks =>
    let r := readFrame (buffer ++ chunk)
    let later := deliver r.2 chunks
    (r.1.toList ++ later.1, later.2)

/-- A frame as `sendPacket` writes it: the 4-byte length, then the payload. -/
def frame (payload : Bytes) : Bytes :=
  leBytes 4 (payload.length % 2 ^ 32) ++ payload

/-! ## Runs of the server -/

/-- All member records of the directory, room after room in iteration order. -/
def Rooms.allMembers : Rooms → List Client
  | [] => []
  | kr :: rest => kr.2.members ++ Rooms.allMembers rest

def Impl.members (d : Impl) : List Client :=
  d.rooms.allMembers

/-- The events the handlers of `Server::Server` react to.  A packet event is
one call of `handlePacket`, a datagram event one turn of the datagram loop;
each decoding has its own values for the fields it leaves unassigned. -/
inductive Event where
  | connect (tcp : Handle)
  | packet (u : Indeterminate) (tcp : Handle) (data : Bytes)
  | datagram (u : Indeterminate) (g : Datagram)
  | disconnect (tcp : Handle)
deriving DecidableEq, Repr

/-- The state after one event, when the handler returns. -/
def Impl.step (peer : Handle → HostAddress) (d : Impl) : Event → Run Impl
  | .connect tcp => .returns (d.newConnection tcp)
  | .packet u tcp data =>
    match d.handlePacket u tcp data with
    | .returns r => .returns r.1
    | .hitUnreachable => .hitUnreachable
    | .badVariantAccess => .badVariantAccess
  | .datagram u g =>
    match d.handleDatagram peer u g with
    | .returns r => .returns r.1
    | .hitUnreachable => .hitUnreachable
    | .badVariantAccess => .badVariantAccess
  | .disconnect tcp => .returns (d.disconnected tcp)

/-- The client id handed out by a step from `d` to `d2`, if any:
`nextClientId++` is the only write to the counter and it is evaluated exactly
when a `Client` record is created with the old value as its id. -/
def Impl.assignedBy (d d2 : Impl) : List Nat :=
  if d2.nextClientId = d.nextClientId then [] else [d.nextClientId]

/-- States the server can be in, together with the ids assigned so far (most
recent first).  It starts from the freshly constructed directory, or from the
one `listen` leaves behind, and moves by events that `ok` admits and whose
handler returns.  The iteration order of the `std::unordered_map` is
unspecified and may change when the map grows: `reorder` lets the entries of
the map be visited in any other order from any point on, so every order an
implementation can produce is covered. -/
inductive Reachable (peer : Handle → HostAddress) (ok : Impl → Event → Prop) :
    Impl → List Nat → Prop where
  | init : Reachable peer ok Impl.init []
  | listened : Reachable peer ok Impl.init.listen []
  | step (d d2 : Impl) (ids : List Nat) (e : Event) :
      Reachable peer ok d ids → ok d e → d.step peer e = .returns d2 →
      Reachable peer ok d2 (d.assignedBy d2 ++ ids)
  | reorder (d : Impl) (rooms2 : Rooms) (ids : List Nat) :
      Reachable peer ok d ids → List.Perm d.rooms rooms2 →
      Reachable peer ok { d with rooms := rooms2 } ids

/-- Every event is admitted. -/
def anyEvent (_ : Impl) (_ : Event) : Prop :=
  True

/-- A new connection comes with a handle that the directory does not hold:
the socket object is new and every closed connection was purged by
`removeClient`. -/
def freshConnect (d : Impl) : Event → Prop
  | .connect tcp => tcp ∉ d.pending ∧ ∀ c ∈ d.members, c.tcp ≠ tcp
  | _ => True

/-- A packet that changes the directory (a CREATE_ROOM, or a JOIN_ROOM of an
existing room) is handled only for a connection in the pending set, that is
one that has connected and has not created or joined a room since. -/
def fromPending (d : Impl) : Event → Prop
  | .packet u tcp data =>
    tcp ∈ d.pending ∨ ∀ d2 out, d.handlePacket u tcp data = .returns (d2, out) → d2 = d
  | _ => True

/-- Fresh connects, and requests from pending connections only. -/
def orderly (d : Impl) (e : Event) : Prop :=
  freshConnect d e ∧ fromPending d e

/-! ## Example packets -/

/-- Example packets: acknowledgements that differ in `bodySize` only. -/
def ackWithBodySize (n : Nat) : Packet :=
  { header := { version := Version.V1, command := Command.ACK, sequenceId := 0, bodySize := n },
    body := .ack { originalSequenceId := 7, status := Status.OK } }

/-- Example packet: a voice message carrying `n` samples of value `x`. -/
def voiceOfSize (n x : Nat) : Packet :=
  { header := { version := Version.V1, command := Command.VOICE_MSG, sequenceId := 0,
                bodySize := 0 },
    body := .voiceMessage { timestamp := 0, senderId := 0, samples := List.replicate n x } }

/-- Example packet: a join request with an empty display name. -/
def joinEmptyName (roomId seq : Nat) : Packet :=
  { header := { version := Version.V1, command := Command.JOIN_ROOM, sequenceId := seq,
                bodySize := 0 },
    body := .joinRoom { roomId := roomId, name := .str [] } }

/-- Example packet: a join request whose display name is `n` letters "A". -/
def joinOfSize (n : Nat) : Packet :=
  { header := { version := Version.V1, command := Command.JOIN_ROOM, sequenceId := 0,
                bodySize := 0 },
    body := .joinRoom { roomId := 0, name := .str (List.replicate n 65) } }

/-- Example packet: a request to create a room. -/
def createRoomRequest (roomId seq : Nat) : Packet :=
  { header := { version := Version.V1, command := Command.CREATE_ROOM, sequenceId := seq,
                bodySize := 0 },
    body := .createRoom { roomId := roomId } }

/-- Example state: the default room 0 is empty, room 7 holds two clients, the
second of which has a learned endpoint; handles 11 and 12 are pending. -/
def exampleImpl : Impl :=
  { pending := [11, 12]
    rooms := [(0, { id := 0, members := [] }),
              (7, { id := 7, members := [{ tcp := 21, udpAddress := none, udpPort := 0, id := 1 },
                                         { tcp := 22, udpAddress := some 100, udpPort := 5000,
                                           id := 2 }] })]
    nextClientId := 3 }

/-- Example state for the relay: room 7 holds four clients, the third of which
has not learned its endpoint. -/
def exampleRelayImpl : Impl :=
  { pending := []
    rooms := [(0, { id := 0, members := [] }),
              (7, { id := 7,
                    members := [{ tcp := 21, udpAddress := some 100, udpPort := 5000, id := 1 },
                                { tcp := 22, udpAddress := some 101, udpPort := 5001, id := 2 },
                                { tcp := 23, udpAddress := none, udpPort := 0, id := 3 },
                                { tcp := 24, udpAddress := some 103, udpPort := 5003,
                                  id := 4 }] })]
    nextClientId := 5 }

/-- Example peer addresses of the control connections. -/
def examplePeer (tcp : Handle) : HostAddress :=
  some (tcp + 79)

/-- Example datagram: a voice message with three samples sent from the endpoint
of the first member of room 7. -/
def exampleVoice : Datagram :=
  { senderAddress := some 100, senderPort := 5000, data := (voiceOfSize 3 9).toBytes }

/-- Example datagram: a voice message from a new port at the peer address of
the third member of room 7. -/
def exampleLearn : Datagram :=
  { senderAddress := some 102, senderPort := 6000, data := (voiceOfSize 3 9).toBytes }

/-- Example state: `exampleRelayImpl` after the third member of room 7 has
learned the endpoint of `exampleLearn`. -/
def exampleLearned : Impl :=
  { pending := []
    rooms := [(0, { id := 0, members := [] }),
              (7, { id := 7,
                    members := [{ tcp := 21, udpAddress := some 100, udpPort := 5000, id := 1 },
                                { tcp := 22, udpAddress := some 101, udpPort := 5001, id := 2 },
                                { tcp := 23, udpAddress := some 102, udpPort := 6000, id := 3 },
                                { tcp := 24, udpAddress := some 103, udpPort := 5003,
                                  id := 4 }] })]
    nextClientId := 5 }

/-- The datagrams sent when `exampleLearn` is handled in `exampleRelayImpl`. -/
def exampleLearnOut : List UdpWrite :=
  [{ data := exampleLearn.data, address := some 100, port := 5000 },
   { data := exampleLearn.data, address := some 101, port := 5001 },
   { data := exampleLearn.data, address := some 103, port := 5003 }]

/-- Example peer addresses: every control connection comes from the address
90 (clients behind one NAT). -/
def natPeer (_ : Handle) : HostAddress :=
  some 90

/-- Example state of a run: handle 11 has created room 7, handles 12 and 13
have joined it, handle 14 has connected; the first two members have learned
their endpoints, which differ in the port only. -/
def exampleRun : Impl :=
  { pending := [14]
    rooms := [(7, { id := 7,
                    members := [{ tcp := 11, udpAddress := some 90, udpPort := 4000, id := 1 },
                                { tcp := 12, udpAddress := some 90, udpPort := 4001, id := 2 },
                                { tcp := 13, udpAddress := none, udpPort := 0, id := 3 }] }),
              (0, { id := 0, members := [] })]
    nextClientId := 4 }

/-- Example datagram: a voice message from port 4000 of the shared address. -/
def exampleFirstVoice : Datagram :=
  { senderAddress := some 90, senderPort := 4000, data := (voiceOfSize 3 9).toBytes }

/-- Example datagram: a voice message from port 4001 of the shared address. -/
def exampleSecondVoice : Datagram :=
  { senderAddress := some 90, senderPort := 4001, data := (voiceOfSize 3 9).toBytes }

/-- States of a long run: handle 1 sits in room 0 with id 1 while handle 2
keeps creating room 5; `m` is the id of its current record, `n` the counter. -/
def wrapBase (m n : Nat) : Impl :=
  { pending := []
    rooms := [(5, { id := 5,
                    members := [{ tcp := 2, udpAddress := none, udpPort := 0, id := m }] }),
              (0, { id := 0,
                    members := [{ tcp := 1, udpAddress := none, udpPort := 0, id := 1 }] })]
    nextClientId := n }

/-- State of the long run after the counter has wrapped to 1 and handle 3 has
joined room 0. -/
def wrapState (m : Nat) : Impl :=
  { pending := []
    rooms := [(5, { id := 5,
                    members := [{ tcp := 2, udpAddress := none, udpPort := 0, id := m }] }),
              (0, { id := 0,
                    members := [{ tcp := 1, udpAddress := none, udpPort := 0, id := 1 },
                                { tcp := 3, udpAddress := none, udpPort := 0, id := 1 }] })]
    nextClientId := 2 }

/-! # Theorems -/

/-! ## Byte-level lemmas -/

theorem beBytes_length (w v : Nat) : (beBytes w v).length = w := by
  induction w with
  | zero => rfl
  | succ w ih => simp [beBytes, ih]

theorem foldl_beBytes (w v acc : Nat) :
    (beBytes w v).foldl (fun a b => a * 256 + b) acc = acc * 256 ^ w + v % 256 ^ w := by
  induction w generalizing acc with
  | zero => simp [beBytes, Nat.mod_one]
  | succ w ih =>
    simp only [beBytes, List.foldl_cons, ih]
    rw [Nat.mod_pow_succ]
    ring

theorem beValue_beBytes (w v : Nat) : beValue (beBytes w v) = v % 256 ^ w := by
  simp [beValue, foldl_beBytes]

theorem readUInt_beBytes (w v : Nat) (rest : Bytes) :
    readUInt w (beBytes w v ++ rest) = (v % 256 ^ w, rest) := by
  have h := beBytes_length w v
  simp [readUInt, readBlock, List.take_append_eq_append_take, List.drop_append_eq_append_drop, h,
    beValue_beBytes]

theorem readUInt_beBytes_of_lt (w v : Nat) (rest : Bytes) (h : v < 256 ^ w) :
    readUInt w (beBytes w v ++ rest) = (v, rest) := by
  rw [readUInt_beBytes, Nat.mod_eq_of_lt h]

theorem header_fromBytes_toBytes (u : Indeterminate) (h : Header) (rest : Bytes) (hwf : h.WF) :
    Header.fromBytes u (h.toBytes ++ rest) = ({ h with bodySize := u.bodySize }, rest) := by
  obtain ⟨hv, hc, hs⟩ := hwf
  simp only [Header.fromBytes, Header.toBytes, List.append_assoc]
  rw [readUInt_beBytes_of_lt 1 _ _ (by simpa using hv)]
  simp only
  rw [readUInt_beBytes_of_lt 2 _ _ (by simpa using hc)]
  simp only
  rw [readUInt_beBytes_of_lt 4 _ _ (by simpa using hs)]

theorem unitsToBytes_length (us : List Nat) : (unitsToBytes us).length = 2 * us.length := by
  induction us with
  | nil => rfl
  | cons u us ih => simp [unitsToBytes, beBytes_length, ih]; omega

theorem unitsOfBytes_unitsToBytes (us : List Nat) (h : ∀ x ∈ us, x < 65536) :
    unitsOfBytes (unitsToBytes us) = us := by
  induction us with
  | nil => rfl
  | cons u us ih =>
    have hu : u < 65536 := h u (by simp)
    have ih2 := ih (fun x hx => h x (by simp [hx]))
    simp only [unitsToBytes, beBytes, List.cons_append, List.nil_append, unitsOfBytes, ih2]
    congr 1
    omega

theorem toInt32_of_lt (n : Nat) (h : n < 2 ^ 31) : toInt32 n = (n : Int) := by
  have h1 : n % 2 ^ 32 = n := Nat.mod_eq_of_lt (by omega)
  unfold toInt32
  rw [h1, if_pos h]


theorem QString_roundtrip_str (us : List Nat) (rest : Bytes)
    (hu : ∀ x ∈ us, x < 65536) (hl : us.length < 2 ^ 30) :
    QString.fromBytes ((QString.str us).toBytes ++ rest) = (QString.str us, rest) := by
  have hlen : (2 * us.length) % 2 ^ 32 = 2 * us.length := Nat.mod_eq_of_lt (by omega)
  have hb := unitsToBytes_length us
  rcases Nat.eq_zero_or_pos us.length with h0 | hpos
  · have : us = [] := List.length_eq_zero.mp h0
    subst this
    simp [QString.toBytes, QString.fromBytes, writeBytes, readUInt_beBytes]
  · have h31 : 2 * us.length < 2 ^ 31 := by omega
    simp only [QString.toBytes, writeBytes, hlen, QString.fromBytes, List.append_assoc,
      readUInt_beBytes]
    have hne : 2 * us.length ≠ 0 := by omega
    simp only [if_neg hne, toInt32_of_lt _ h31, writeRawData]
    have hm : 2 * us.length % 256 ^ 4 = 2 * us.length := Nat.mod_eq_of_lt (by omega)
    rw [hm]
    have hff : ¬ (2 * us.length = 0xffffffff) := by omega
    have hodd : ¬ (2 * us.length % 2 = 1) := by omega
    have hpos2 : 0 < 2 * us.length := by omega
    have hnn : ¬ ((2 * us.length : Nat) : Int) < 0 := by omega
    simp only [if_neg hff, if_pos hpos2, if_neg hodd, if_neg hnn, Int.toNat_ofNat]
    have ht : List.take (2 * us.length) (unitsToBytes us) = unitsToBytes us := by
      rw [List.take_of_length_le]; omega
    rw [ht]
    have hle : 2 * us.length ≤ (unitsToBytes us ++ rest).length := by
      simp [hb]
    rw [if_pos hle]
    have t2 : List.take (2 * us.length) (unitsToBytes us ++ rest) = unitsToBytes us := by
      rw [← hb]; simp
    have d2 : List.drop (2 * us.length) (unitsToBytes us ++ rest) = rest := by
      rw [← hb]; simp
    rw [t2, d2, unitsOfBytes_unitsToBytes us hu]

theorem QString_roundtrip_null (rest : Bytes) :
    QString.fromBytes (QString.null.toBytes ++ rest) = (QString.null, rest) := by
  simp [QString.toBytes, QString.fromBytes, readUInt_beBytes]

theorem samples_roundtrip (xs rest : Bytes) (hl : xs.length < 2 ^ 31) :
    readRawData (List.replicate xs.length 0) (toInt32 xs.length)
      (writeRawData xs (toInt32 xs.length) ++ rest) = (xs, rest) := by
  have hnn : ¬ ((xs.length : Nat) : Int) < 0 := by omega
  simp [readRawData, writeRawData, toInt32_of_lt _ hl, hnn, readBlock]

/-! ## Codec round trip -/

theorem QString_roundtrip (q : QString) (rest : Bytes) (h : q.WF) :
    QString.fromBytes (q.toBytes ++ rest) = (q, rest) := by
  cases q with
  | null => exact QString_roundtrip_null rest
  | str us => exact QString_roundtrip_str us rest h.1 h.2

theorem bodyFromBytes_bodyToBytes (u : Indeterminate) (b : Body) (rest : Bytes) (h : b.WF) :
    bodyFromBytes u b.command (bodyToBytes b ++ rest)
      = .returns (b.withSenderId u.senderId, rest) := by
  cases b with
  | createRoom b =>
    simp only [Body.WF] at h
    simp [bodyFromBytes, bodyToBytes, Body.command, Command.CREATE_ROOM, Body.withSenderId,
      readUInt_beBytes_of_lt 8 _ _ (by simpa using h)]
  | joinRoom b =>
    simp only [Body.WF] at h
    simp [bodyFromBytes, bodyToBytes, Body.command, Command.CREATE_ROOM, Command.JOIN_ROOM,
      Body.withSenderId, readUInt_beBytes_of_lt 8 _ _ (by simpa using h.1),
      QString_roundtrip _ _ h.2]
  | voiceMessage b =>
    simp only [Body.WF] at h
    have hl : b.samples.length < 256 ^ 4 := by have := h.2; omega
    simp [bodyFromBytes, bodyToBytes, Body.command, Command.CREATE_ROOM, Command.JOIN_ROOM,
      Command.VOICE_MSG, Body.withSenderId, readUInt_beBytes_of_lt 8 _ _ (by simpa using h.1),
      readUInt_beBytes_of_lt 4 _ _ hl, samples_roundtrip _ _ h.2]
  | ack b =>
    simp only [Body.WF] at h
    simp [bodyFromBytes, bodyToBytes, Body.command, Command.CREATE_ROOM, Command.JOIN_ROOM,
      Command.VOICE_MSG, Command.ACK, Body.withSenderId,
      readUInt_beBytes_of_lt 4 _ _ (by simpa using h.1),
      readUInt_beBytes_of_lt 1 _ _ (by simpa using h.2)]

theorem Packet.fromBytes_toBytes_append (u : Indeterminate) (p : Packet) (rest : Bytes)
    (hwf : p.WF) (hcmd : p.body.command = p.header.command) :
    Packet.fromBytes u (p.toBytes ++ rest)
      = .returns ({ header := { p.header with bodySize := u.bodySize },
                    body := p.body.withSenderId u.senderId }, rest) := by
  simp only [Packet.fromBytes, Packet.toBytes, List.append_assoc]
  rw [header_fromBytes_toBytes u p.header _ hwf.1]
  simp only
  rw [← hcmd, bodyFromBytes_bodyToBytes u p.body rest hwf.2]

theorem toInt32_of_ge (n : Nat) (h1 : 2 ^ 31 ≤ n) (h2 : n < 2 ^ 32) : toInt32 n < 0 := by
  have hm : n % 2 ^ 32 = n := Nat.mod_eq_of_lt h2
  unfold toInt32
  rw [hm, if_neg (by omega)]
  omega

theorem fromBytes_voiceOfSize (u : Indeterminate) (n x : Nat) (h1 : 2 ^ 31 ≤ n) (h2 : n < 2 ^ 32) :
    Packet.fromBytes u (voiceOfSize n x).toBytes
      = .returns ({ header := { (voiceOfSize n x).header with bodySize := u.bodySize },
                    body := .voiceMessage { timestamp := 0, senderId := u.senderId,
                                            samples := List.replicate n 0 } }, []) := by
  have hneg := toInt32_of_ge n h1 h2
  have hwf : (voiceOfSize n x).header.WF := by
    simp [voiceOfSize, Header.WF, Version.V1, Command.VOICE_MSG]
  have hb : bodyToBytes (voiceOfSize n x).body = beBytes 8 0 ++ (beBytes 4 n ++ []) := by
    simp only [voiceOfSize, bodyToBytes, List.length_replicate, writeRawData, if_pos hneg,
      List.append_assoc]
  have h4 : n < 256 ^ 4 := by omega
  simp only [Packet.fromBytes, Packet.toBytes]
  rw [header_fromBytes_toBytes u _ _ hwf, hb]
  simp only [voiceOfSize, bodyFromBytes, Command.VOICE_MSG, Command.CREATE_ROOM,
    Command.JOIN_ROOM]
  rw [readUInt_beBytes_of_lt 8 0 _ (by norm_num)]
  simp only
  rw [readUInt_beBytes_of_lt 4 n _ h4]
  simp only [readRawData, if_pos hneg]
  simp

theorem replicate_zero_ne_one (n : Nat) (h : 0 < n) :
    List.replicate n (0 : Nat) ≠ List.replicate n 1 := by
  intro he
  have h0 : (0 : Nat) ∈ List.replicate n 1 := by
    rw [← he]; exact List.mem_replicate.mpr ⟨by omega, rfl⟩
  have := (List.mem_replicate.mp h0).2
  omega

theorem fromBytes_voiceOfSize_ne (u : Indeterminate) (n : Nat) (h1 : 2 ^ 31 ≤ n)
    (h2 : n < 2 ^ 32) :
    Packet.fromBytes u (voiceOfSize n 1).toBytes ≠ .returns (voiceOfSize n 1, []) := by
  rw [fromBytes_voiceOfSize u n 1 h1 h2]
  intro he
  have hp := (Prod.mk.inj (Run.returns.inj he)).1
  have hb := (Packet.mk.inj hp).2
  have hv := Body.voiceMessage.inj hb
  have hs := (VoiceMessageBody.mk.inj hv).2.2
  exact replicate_zero_ne_one n (by omega) hs

theorem fromBytes_joinOfSize (u : Indeterminate) (n : Nat) (h1 : 2 ^ 30 ≤ n) (h2 : n < 2 ^ 31) :
    Packet.fromBytes u (joinOfSize n).toBytes
      = .returns ({ header := { (joinOfSize n).header with bodySize := u.bodySize },
                    body := .joinRoom { roomId := 0, name := .null } }, []) := by
  have hm : (2 * n) % 2 ^ 32 = 2 * n := Nat.mod_eq_of_lt (by omega)
  have hneg := toInt32_of_ge (2 * n) (by omega) (by omega)
  have hwf : (joinOfSize n).header.WF := by
    simp [joinOfSize, Header.WF, Version.V1, Command.JOIN_ROOM]
  have hne : 2 * n ≠ 0 := by omega
  have hb : bodyToBytes (joinOfSize n).body = beBytes 8 0 ++ (beBytes 4 (2 * n) ++ []) := by
    simp only [joinOfSize, bodyToBytes, QString.toBytes, writeBytes, List.length_replicate, hm,
      if_neg hne, writeRawData, if_pos hneg]
  have h4 : 2 * n < 256 ^ 4 := by omega
  simp only [Packet.fromBytes, Packet.toBytes]
  rw [header_fromBytes_toBytes u _ _ hwf, hb]
  simp only [joinOfSize, bodyFromBytes, Command.JOIN_ROOM, Command.CREATE_ROOM]
  rw [readUInt_beBytes_of_lt 8 0 _ (by norm_num)]
  simp only [QString.fromBytes]
  rw [readUInt_beBytes_of_lt 4 (2 * n) _ h4]
  have hff : ¬ (2 * n = 0xffffffff) := by omega
  have hpos : 0 < 2 * n := by omega
  have hodd : ¬ (2 * n % 2 = 1) := by omega
  have hshort : ¬ (2 * n ≤ ([] : Bytes).length) := by simp; omega
  simp only [if_neg hff, if_pos hpos, if_neg hodd, if_neg hshort]
  simp

theorem fromBytes_joinOfSize_ne (u : Indeterminate) (n : Nat) (h1 : 2 ^ 30 ≤ n)
    (h2 : n < 2 ^ 31) :
    Packet.fromBytes u (joinOfSize n).toBytes ≠ .returns (joinOfSize n, []) := by
  rw [fromBytes_joinOfSize u n h1 h2]
  intro he
  have hp := (Prod.mk.inj (Run.returns.inj he)).1
  have hb := (Packet.mk.inj hp).2
  have hv := Body.joinRoom.inj hb
  have hs := (JoinRoomBody.mk.inj hv).2
  cases hs

/-- C1 (amended): for every packet whose body variant matches its command and
whose fields fit their wire widths (sample count below `2 ^ 31`, name shorter
than `2 ^ 30` code units), decoding the bytes of `Packet::toBytes` consumes all
of them and returns the packet with version, command, sequence id and body
fields as written; `bodySize` and `senderId`, which are never written, come
back as whatever the decoder left in them. -/
theorem Packet.fromBytes_toBytes (u : Indeterminate) (p : Packet)
    (hwf : p.WF) (hcmd : p.body.command = p.header.command) :
    Packet.fromBytes u p.toBytes
      = .returns ({ header := { p.header with bodySize := u.bodySize },
                    body := p.body.withSenderId u.senderId }, []) := by
  have h := Packet.fromBytes_toBytes_append u p [] hwf hcmd
  simpa using h

/-- C1 (witness): a join request with an empty display name and a voice message
with no samples survive the round trip. -/
theorem Packet.fromBytes_toBytes_witness :
    (joinEmptyName 42 5).WF ∧ (voiceOfSize 0 0).WF
      ∧ Packet.fromBytes ⟨0, 0⟩ (joinEmptyName 42 5).toBytes = .returns (joinEmptyName 42 5, [])
      ∧ Packet.fromBytes ⟨0, 0⟩ (voiceOfSize 0 0).toBytes = .returns (voiceOfSize 0 0, []) :=
  ⟨by decide, by decide,
   Packet.fromBytes_toBytes ⟨0, 0⟩ (joinEmptyName 42 5) (by decide) rfl,
   Packet.fromBytes_toBytes ⟨0, 0⟩ (voiceOfSize 0 0) (by decide) rfl⟩

/-- C1 (counterexample): two acknowledgements that differ in `bodySize` have
the same bytes, so decoding cannot return both; a voice message with `2 ^ 31`
samples of value 1 is written without its samples and decodes to `2 ^ 31` zero
samples; a join request whose name has `2 ^ 30` code units is written without
them and decodes to the null name. -/
theorem Packet.roundtrip_counterexample :
    (ackWithBodySize 1).WF
      ∧ (ackWithBodySize 1).body.command = (ackWithBodySize 1).header.command
      ∧ (ackWithBodySize 1).toBytes = (ackWithBodySize 2).toBytes
      ∧ ackWithBodySize 1 ≠ ackWithBodySize 2
      ∧ Packet.fromBytes ⟨0, 0⟩ (ackWithBodySize 1).toBytes ≠ .returns (ackWithBodySize 1, [])
      ∧ Packet.fromBytes ⟨0, 0⟩ (voiceOfSize (2 ^ 31) 1).toBytes
          ≠ .returns (voiceOfSize (2 ^ 31) 1, [])
      ∧ Packet.fromBytes ⟨0, 0⟩ (joinOfSize (2 ^ 30)).toBytes
          ≠ .returns (joinOfSize (2 ^ 30), []) := by
  refine ⟨?_, rfl, rfl, by decide, by decide, ?_, ?_⟩
  · simp [ackWithBodySize, Packet.WF, Header.WF, Body.WF, Version.V1, Command.ACK, Status.OK]
  · exact fromBytes_voiceOfSize_ne ⟨0, 0⟩ (2 ^ 31) (le_refl _) (by norm_num)
  · exact fromBytes_joinOfSize_ne ⟨0, 0⟩ (2 ^ 30) (le_refl _) (by norm_num)

/-! ## Unrecognised commands -/

/-- C2: when the 2-byte command field of the input holds a value above 3,
`Packet::fromBytes` neither returns a packet nor reports an error: control
reaches `Q_UNREACHABLE()`. -/
theorem Packet.fromBytes_unrecognized (u : Indeterminate) (v hi lo : Nat) (rest : Bytes)
    (h : 3 < hi * 256 + lo) :
    Packet.fromBytes u (v :: hi :: lo :: rest) = .hitUnreachable := by
  have hc : (Header.fromBytes u (v :: hi :: lo :: rest)).1.command = hi * 256 + lo := by
    simp [Header.fromBytes, readUInt, readBlock, beValue]
  have h0 : hi * 256 + lo ≠ 0 := by omega
  have h1 : hi * 256 + lo ≠ 1 := by omega
  have h2 : hi * 256 + lo ≠ 2 := by omega
  have h3 : hi * 256 + lo ≠ 3 := by omega
  simp only [Packet.fromBytes, hc, bodyFromBytes, Command.CREATE_ROOM, Command.JOIN_ROOM,
    Command.VOICE_MSG, Command.ACK, if_neg h0, if_neg h1, if_neg h2, if_neg h3]

/-- C2 (failing input): the seven bytes of a header with command 4. -/
theorem Packet.fromBytes_unrecognized_witness :
    3 < 0 * 256 + 4 ∧ Packet.fromBytes ⟨0, 0⟩ [0, 0, 4, 0, 0, 0, 0] = .hitUnreachable :=
  ⟨by decide, Packet.fromBytes_unrecognized ⟨0, 0⟩ 0 0 4 [0, 0, 0, 0] (by decide)⟩

/-! ## Room directory and control-channel dispatch -/

theorem Rooms.find_replace_self (rooms : Rooms) (k : Nat) (r R0 : Room)
    (h : rooms.find k = some R0) : (rooms.replace k r).find k = some r := by
  induction rooms with
  | nil => simp [Rooms.find] at h
  | cons kr rest ih =>
    by_cases hk : kr.1 = k
    · simp [Rooms.replace, Rooms.find, hk]
    · simp only [Rooms.find, hk, if_false] at h
      simp [Rooms.replace, Rooms.find, hk, ih h]

theorem Rooms.find_replace_ne (rooms : Rooms) (k k2 : Nat) (r : Room) (hne : k2 ≠ k) :
    (rooms.replace k r).find k2 = rooms.find k2 := by
  induction rooms with
  | nil => simp [Rooms.replace, Rooms.find]
  | cons kr rest ih =>
    obtain ⟨k1, R1⟩ := kr
    by_cases h : k1 = k
    · subst h
      simp [Rooms.replace, Rooms.find, hne.symm]
    · by_cases h3 : k1 = k2
      · subst h3
        simp [Rooms.replace, Rooms.find, h]
      · simp [Rooms.replace, Rooms.find, h, h3, ih]

theorem Rooms.find_assign_self (rooms : Rooms) (k : Nat) (r : Room) :
    (rooms.assign k r).find k = some r := by
  unfold Rooms.assign
  cases h : rooms.find k with
  | some R0 => exact Rooms.find_replace_self rooms k r R0 h
  | none => simp [Rooms.find]

theorem Rooms.find_assign_ne (rooms : Rooms) (k k2 : Nat) (r : Room) (hne : k2 ≠ k) :
    (rooms.assign k r).find k2 = rooms.find k2 := by
  unfold Rooms.assign
  cases h : rooms.find k with
  | some R0 => exact Rooms.find_replace_ne rooms k k2 r hne
  | none => simp [Rooms.find, hne.symm]

theorem Rooms.find_modify_self (rooms : Rooms) (k : Nat) (f : Room → Room) (R : Room)
    (hf : rooms.find k = some R) : (rooms.modify k f).find k = some (f R) := by
  induction rooms with
  | nil => simp [Rooms.find] at hf
  | cons kr rest ih =>
    by_cases h : kr.1 = k
    · simp [Rooms.find, h] at hf
      simp [Rooms.modify, Rooms.find, h, hf]
    · simp [Rooms.find, h] at hf
      simp [Rooms.modify, Rooms.find, h, ih hf]

theorem Rooms.find_modify_ne (rooms : Rooms) (k k2 : Nat) (f : Room → Room) (hne : k2 ≠ k) :
    (rooms.modify k f).find k2 = rooms.find k2 := by
  induction rooms with
  | nil => simp [Rooms.modify, Rooms.find]
  | cons kr rest ih =>
    obtain ⟨k1, R1⟩ := kr
    by_cases h : k1 = k
    · subst h
      simp [Rooms.modify, Rooms.find, hne.symm]
    · by_cases h3 : k1 = k2
      · subst h3
        simp [Rooms.modify, Rooms.find, h]
      · simp [Rooms.modify, Rooms.find, h, h3, ih]

/-- The body variant returned by `Packet::fromBytes` is the one selected by the
decoded command. -/
theorem Packet.fromBytes_command (u : Indeterminate) (s rest : Bytes) (p : Packet)
    (h : Packet.fromBytes u s = .returns (p, rest)) : p.body.command = p.header.command := by
  unfold Packet.fromBytes at h
  generalize Header.fromBytes u s = hd at h
  unfold bodyFromBytes at h
  by_cases h0 : hd.1.command = Command.CREATE_ROOM
  · simp only [h0, if_true] at h
    obtain ⟨rfl, -⟩ := Prod.mk.inj (Run.returns.inj h)
    simp [Body.command, h0]
  by_cases h1 : hd.1.command = Command.JOIN_ROOM
  · simp only [h0, h1, if_true, if_false] at h
    obtain ⟨rfl, -⟩ := Prod.mk.inj (Run.returns.inj h)
    simp [Body.command, h1]
  by_cases h2 : hd.1.command = Command.VOICE_MSG
  · simp only [h0, h1, h2, if_true, if_false] at h
    obtain ⟨rfl, -⟩ := Prod.mk.inj (Run.returns.inj h)
    simp [Body.command, h2]
  by_cases h3 : hd.1.command = Command.ACK
  · simp only [h0, h1, h2, h3, if_true, if_false] at h
    obtain ⟨rfl, -⟩ := Prod.mk.inj (Run.returns.inj h)
    simp [Body.command, h3]
  · simp only [h0, h1, h2, h3, if_false] at h
    cases h

theorem handlePacket_create (u : Indeterminate) (d : Impl) (tcp : Handle) (data rest : Bytes)
    (p : Packet) (b : CreateRoomBody)
    (hdec : Packet.fromBytes u data = .returns (p, rest)) (hbody : p.body = .createRoom b) :
    d.handlePacket u tcp data = .returns
      ({ pending := pendingErase d.pending tcp
         rooms := d.rooms.assign b.roomId
           { id := b.roomId
             members := [{ tcp := tcp, udpAddress := none, udpPort := 0, id := d.nextClientId }] }
         nextClientId := (d.nextClientId + 1) % 2 ^ 32 },
       sendAck tcp p.header.sequenceId Status.OK) := by
  have hc := Packet.fromBytes_command u data rest p hdec
  rw [hbody] at hc
  simp only [Body.command] at hc
  simp [Impl.handlePacket, hdec, ← hc, hbody]

theorem handlePacket_join_found (u : Indeterminate) (d : Impl) (tcp : Handle) (data rest : Bytes)
    (p : Packet) (b : JoinRoomBody) (R : Room)
    (hdec : Packet.fromBytes u data = .returns (p, rest)) (hbody : p.body = .joinRoom b)
    (hfind : d.rooms.find b.roomId = some R) :
    d.handlePacket u tcp data = .returns
      ({ pending := pendingErase d.pending tcp
         rooms := d.rooms.modify b.roomId (fun r =>
           r.addMember { tcp := tcp, udpAddress := none, udpPort := 0, id := d.nextClientId })
         nextClientId := (d.nextClientId + 1) % 2 ^ 32 },
       sendAck tcp p.header.sequenceId Status.OK) := by
  have hc := Packet.fromBytes_command u data rest p hdec
  rw [hbody] at hc
  simp only [Body.command] at hc
  simp [Impl.handlePacket, hdec, ← hc, hbody, hfind, Command.JOIN_ROOM, Command.CREATE_ROOM]

/-- C6: handling CREATE_ROOM(r) from handle `a` and then JOIN_ROOM(r) from
handle `b` acknowledges both requests with status OK and leaves room `r` with
exactly two members: the client created for `a` followed by the client created
for `b`. -/
theorem create_then_join (u : Indeterminate) (d : Impl) (a b : Handle)
    (data1 rest1 data2 rest2 : Bytes) (p1 p2 : Packet) (cb : CreateRoomBody) (jb : JoinRoomBody)
    (hdec1 : Packet.fromBytes u data1 = .returns (p1, rest1)) (hb1 : p1.body = .createRoom cb)
    (hdec2 : Packet.fromBytes u data2 = .returns (p2, rest2)) (hb2 : p2.body = .joinRoom jb)
    (hroom : jb.roomId = cb.roomId) :
    ∃ d1 d2 : Impl,
      d.handlePacket u a data1 = .returns (d1, sendAck a p1.header.sequenceId Status.OK)
      ∧ d1.handlePacket u b data2 = .returns (d2, sendAck b p2.header.sequenceId Status.OK)
      ∧ d2.rooms.find cb.roomId = some
          { id := cb.roomId
            members := [{ tcp := a, udpAddress := none, udpPort := 0, id := d.nextClientId },
                        { tcp := b, udpAddress := none, udpPort := 0,
                          id := (d.nextClientId + 1) % 2 ^ 32 }] } := by
  have h1 := handlePacket_create u d a data1 rest1 p1 cb hdec1 hb1
  have hf : (d.rooms.assign cb.roomId
      { id := cb.roomId,
        members := [{ tcp := a, udpAddress := none, udpPort := 0, id := d.nextClientId }] }).find
      jb.roomId
      = some (Room.mk cb.roomId [Client.mk a none 0 d.nextClientId]) := by
    rw [hroom]; exact Rooms.find_assign_self _ _ _
  have h2 := handlePacket_join_found u
    (Impl.mk (pendingErase d.pending a)
      (d.rooms.assign cb.roomId (Room.mk cb.roomId [Client.mk a none 0 d.nextClientId]))
      ((d.nextClientId + 1) % 2 ^ 32))
    b data2 rest2 p2 jb _ hdec2 hb2 hf
  refine ⟨_, _, h1, h2, ?_⟩
  have h3 := Rooms.find_modify_self _ _ (fun r : Room =>
    r.addMember (Client.mk b none 0 ((d.nextClientId + 1) % 2 ^ 32))) _ hf
  rw [hroom] at h3
  simpa [Room.addMember, hroom] using h3

/-- C6 (witness): room 42 created by handle 11 and joined by handle 12. -/
theorem create_then_join_witness :
    Packet.fromBytes ⟨0, 0⟩ (createRoomRequest 42 1).toBytes
        = .returns (createRoomRequest 42 1, [])
      ∧ Packet.fromBytes ⟨0, 0⟩ (joinEmptyName 42 5).toBytes = .returns (joinEmptyName 42 5, [])
      ∧ ∃ d1 d2 : Impl,
          exampleImpl.handlePacket ⟨0, 0⟩ 11 (createRoomRequest 42 1).toBytes
            = .returns (d1, sendAck 11 1 Status.OK)
          ∧ d1.handlePacket ⟨0, 0⟩ 12 (joinEmptyName 42 5).toBytes
            = .returns (d2, sendAck 12 5 Status.OK)
          ∧ d2.rooms.find 42 = some
              { id := 42
                members := [{ tcp := 11, udpAddress := none, udpPort := 0, id := 3 },
                            { tcp := 12, udpAddress := none, udpPort := 0, id := 4 }] } :=
  ⟨by decide, by decide,
   create_then_join ⟨0, 0⟩ exampleImpl 11 12 (createRoomRequest 42 1).toBytes []
     (joinEmptyName 42 5).toBytes [] (createRoomRequest 42 1) (joinEmptyName 42 5)
     { roomId := 42 } { roomId := 42, name := .str [] } (by decide) rfl (by decide) rfl rfl⟩

/-- C7: after `removeClient(h)` no room has a member whose control handle is
`h` and `h` is not pending; every room keeps its key, its id and exactly its
members with other handles, in their original order; other pending handles
and the id counter are untouched. -/
theorem removeClient_purges (d : Impl) (h : Handle) :
    (∀ kr ∈ (d.removeClient h).rooms, ∀ c ∈ kr.2.members, c.tcp ≠ h)
      ∧ h ∉ (d.removeClient h).pending
      ∧ (d.removeClient h).rooms.map (fun kr => (kr.1, kr.2.id, kr.2.members))
          = d.rooms.map (fun kr =>
              (kr.1, kr.2.id, kr.2.members.filter (fun c => !(c.tcp == h))))
      ∧ (∀ kr ∈ d.rooms, ∀ c ∈ kr.2.members, c.tcp ≠ h →
          ∃ kr2 ∈ (d.removeClient h).rooms, kr2.1 = kr.1 ∧ c ∈ kr2.2.members)
      ∧ (∀ x, x ≠ h → (x ∈ (d.removeClient h).pending ↔ x ∈ d.pending))
      ∧ (d.removeClient h).nextClientId = d.nextClientId := by
  refine ⟨?_, ?_, ?_, ?_, ?_, rfl⟩
  · intro kr hkr c hc
    simp only [Impl.removeClient, List.mem_map] at hkr
    obtain ⟨kr0, -, rfl⟩ := hkr
    simp only [Room.removeMember, List.mem_filter] at hc
    simpa using hc.2
  · simp [Impl.removeClient, pendingErase]
  · simp [Impl.removeClient, Room.removeMember, List.map_map, Function.comp_def]
  · intro kr hkr c hc hne
    refine ⟨(kr.1, kr.2.removeMember h), ?_, rfl, ?_⟩
    · simp only [Impl.removeClient, List.mem_map]
      exact ⟨kr, hkr, rfl⟩
    · simp only [Room.removeMember, List.mem_filter]
      exact ⟨hc, by simpa using hne⟩
  · intro x hx
    simp [Impl.removeClient, pendingErase, hx]

theorem removeMember_idem (r : Room) (h : Handle) :
    (r.removeMember h).removeMember h = r.removeMember h := by
  simp [Room.removeMember, List.filter_filter]

theorem removeMember_of_absent (r : Room) (h : Handle) (hr : ∀ c ∈ r.members, c.tcp ≠ h) :
    r.removeMember h = r := by
  have : r.members.filter (fun c => !(c.tcp == h)) = r.members := by
    rw [List.filter_eq_self]
    intro c hc
    simpa using hr c hc
  cases r
  simp_all [Room.removeMember]

/-- C8: `removeClient` is idempotent, and it leaves the state unchanged when
the handle is neither pending nor the handle of a member of any room. -/
theorem removeClient_idempotent (d : Impl) (h : Handle) :
    (d.removeClient h).removeClient h = d.removeClient h
      ∧ ((h ∉ d.pending ∧ ∀ kr ∈ d.rooms, ∀ c ∈ kr.2.members, c.tcp ≠ h) →
          d.removeClient h = d) := by
  constructor
  · simp [Impl.removeClient, pendingErase, List.filter_filter, List.map_map, Function.comp_def,
      removeMember_idem]
  · rintro ⟨hp, hr⟩
    have h1 : pendingErase d.pending h = d.pending := by
      unfold pendingErase
      rw [List.filter_eq_self]
      intro x hx
      have : x ≠ h := fun e => hp (e ▸ hx)
      simpa using this
    have h2 : d.rooms.map (fun kr => (kr.1, kr.2.removeMember h)) = d.rooms := by
      conv_rhs => rw [← List.map_id d.rooms]
      apply List.map_congr_left
      intro kr hkr
      rw [removeMember_of_absent kr.2 h (hr kr hkr)]
      rfl
    cases d
    simp_all [Impl.removeClient]

/-- C9: after CREATE_ROOM(r) from handle `h` (any bytes that decode to one),
also when the directory already holds a room `r`, room `r` has exactly one
member, the client just created for `h`; every other record that was a member
of the old room `r` is no longer a member of room `r`; the entries of all other
room ids are unchanged. -/
theorem create_replaces_room (u : Indeterminate) (d : Impl) (h : Handle) (data rest : Bytes)
    (p : Packet) (b : CreateRoomBody)
    (hdec : Packet.fromBytes u data = .returns (p, rest)) (hbody : p.body = .createRoom b) :
    ∃ d2 : Impl,
      d.handlePacket u h data = .returns (d2, sendAck h p.header.sequenceId Status.OK)
      ∧ d2.rooms.find b.roomId
          = some (Room.mk b.roomId [Client.mk h none 0 d.nextClientId])
      ∧ (∀ R c, d.rooms.find b.roomId = some R → c ∈ R.members →
          c ≠ Client.mk h none 0 d.nextClientId →
          ∀ R2, d2.rooms.find b.roomId = some R2 → c ∉ R2.members)
      ∧ (∀ k, k ≠ b.roomId → d2.rooms.find k = d.rooms.find k) := by
  refine ⟨_, handlePacket_create u d h data rest p b hdec hbody, ?_, ?_, ?_⟩
  · exact Rooms.find_assign_self _ _ _
  · intro R c _ _ hne R2 hR2
    rw [Rooms.find_assign_self] at hR2
    obtain rfl := Option.some.inj hR2
    simpa using hne
  · intro k hk
    exact Rooms.find_assign_ne _ _ _ _ hk

/-- C8 (witness): handle 99 is unknown to the example state. -/
theorem removeClient_idempotent_witness :
    (99 ∉ exampleImpl.pending ∧ ∀ kr ∈ exampleImpl.rooms, ∀ c ∈ kr.2.members, c.tcp ≠ 99)
      ∧ exampleImpl.removeClient 99 = exampleImpl
      ∧ (exampleImpl.removeClient 21).removeClient 21 = exampleImpl.removeClient 21 :=
  ⟨by decide, (removeClient_idempotent exampleImpl 99).2 (by decide),
   (removeClient_idempotent exampleImpl 21).1⟩

/-- C9 (witness): handle 11 re-creates room 7, which held two clients. -/
theorem create_replaces_room_witness :
    Packet.fromBytes ⟨0, 0⟩ (createRoomRequest 7 1).toBytes
        = .returns (createRoomRequest 7 1, [])
      ∧ ∃ d2 : Impl,
          exampleImpl.handlePacket ⟨0, 0⟩ 11 (createRoomRequest 7 1).toBytes
            = .returns (d2, sendAck 11 1 Status.OK)
          ∧ d2.rooms.find 7 = some (Room.mk 7 [Client.mk 11 none 0 3])
          ∧ d2.rooms.find 0 = exampleImpl.rooms.find 0 := by
  refine ⟨by decide, ?_⟩
  obtain ⟨d2, h1, h2, -, h4⟩ :=
    create_replaces_room ⟨0, 0⟩ exampleImpl 11 (createRoomRequest 7 1).toBytes []
      (createRoomRequest 7 1) { roomId := 7 } (by decide) rfl
  exact ⟨d2, h1, h2, h4 0 (by decide)⟩

/-! ## Relay handler -/

theorem find?_append_of_none {α : Type} (p : α → Bool) (xs : List α) (y : α) (ys : List α)
    (hx : ∀ x ∈ xs, p x = false) (hy : p y = true) :
    (xs ++ y :: ys).find? p = some y := by
  induction xs with
  | nil => simp [hy]
  | cons x xs ih =>
    have h1 : p x = false := hx x (by simp)
    simp only [List.cons_append, List.find?_cons, h1]
    exact ih (fun z hz => hx z (by simp [hz]))

theorem find?_eq_none_of_forall {α : Type} (p : α → Bool) (xs : List α)
    (hx : ∀ x ∈ xs, p x = false) : xs.find? p = none := by
  rw [List.find?_eq_none]
  intro x hx2
  simp [hx x hx2]

theorem Rooms.findMember_append (p : Client → Bool) (rpre rpost : Rooms) (k : Nat) (R : Room)
    (pre post : List Client) (S : Client)
    (hmem : R.members = pre ++ S :: post)
    (hrooms : ∀ kr ∈ rpre, ∀ m ∈ kr.2.members, p m = false)
    (hpre : ∀ m ∈ pre, p m = false) (hS : p S = true) :
    Rooms.findMember p (rpre ++ (k, R) :: rpost) = some S := by
  induction rpre with
  | nil =>
    simp only [List.nil_append, Rooms.findMember, hmem, find?_append_of_none p pre S post hpre hS]
  | cons kr rest ih =>
    have h1 := find?_eq_none_of_forall p kr.2.members (hrooms kr (by simp))
    simp only [List.cons_append, Rooms.findMember, h1]
    exact ih (fun z hz => hrooms z (by simp [hz]))

theorem findRoom_append (p : Client → Bool) (rpre rpost : Rooms) (k : Nat) (R : Room)
    (S : Client) (hS : S ∈ R.members) (hp : p S = true)
    (hrooms : ∀ kr ∈ rpre, ∀ m ∈ kr.2.members, p m = false) :
    ((rpre ++ (k, R) :: rpost).find? (fun kr => kr.2.members.any p)).map (·.2) = some R := by
  have h1 : ∀ kr ∈ rpre, (fun kr : Nat × Room => kr.2.members.any p) kr = false := by
    intro kr hkr
    simp only [List.any_eq_false]
    intro m hm
    simp [hrooms kr hkr m hm]
  have h2 : (fun kr : Nat × Room => kr.2.members.any p) (k, R) = true := by
    simp only [List.any_eq_true]
    exact ⟨S, hS, hp⟩
  rw [find?_append_of_none _ rpre (k, R) rpost h1 h2]
  rfl

theorem fanOut_eq_filter (a : HostAddress) (port : Nat) (out : Bytes) (ms : List Client) :
    fanOut a port out ms
      = ((ms.filter (fun m => !(m.atEndpoint a port))).filter Client.hasUdpEndpoint).map
          (fun m => { data := out, address := m.udpAddress, port := m.udpPort }) := by
  induction ms with
  | nil => rfl
  | cons m ms ih =>
    by_cases h1 : m.atEndpoint a port = true
    · simp [fanOut, h1, ih]
    · by_cases h2 : m.hasUdpEndpoint = true
      · simp [fanOut, h1, h2, sendUdpPacket, ih]
      · simp [fanOut, h1, h2, sendUdpPacket, ih]

theorem filter_others (a : HostAddress) (port : Nat) (pre post : List Client) (S : Client)
    (hS : S.atEndpoint a port = true) (ho : ∀ m ∈ pre ++ post, m.atEndpoint a port = false) :
    (pre ++ S :: post).filter (fun m => !(m.atEndpoint a port)) = pre ++ post := by
  have h1 : pre.filter (fun m => !(m.atEndpoint a port)) = pre := by
    rw [List.filter_eq_self]
    intro m hm
    simp [ho m (by simp [hm])]
  have h2 : post.filter (fun m => !(m.atEndpoint a port)) = post := by
    rw [List.filter_eq_self]
    intro m hm
    simp [ho m (by simp [hm])]
  simp [List.filter_append, List.filter_cons, hS, h1, h2]

/-- C3: let `S` be a member of room `R` whose endpoint is the source of a
datagram that decodes to a VOICE_MSG packet, `S` being the only member with
that endpoint in `R` and in the rooms iterated before `R`.  The handler leaves
the state alone and sends the re-encoded packet to exactly the other members of
`R` that have a learned endpoint, once each and in member order; nothing goes
to `S` nor to a member without a learned endpoint. -/
theorem relay_fanout (peer : Handle → HostAddress) (u : Indeterminate) (d : Impl) (g : Datagram)
    (k : Nat) (R : Room) (rpre rpost : Rooms) (pre post : List Client) (S : Client)
    (p : Packet) (rest : Bytes)
    (hrooms : d.rooms = rpre ++ (k, R) :: rpost)
    (hmem : R.members = pre ++ S :: post)
    (hS : S.atEndpoint g.senderAddress g.port = true)
    (hearlier : ∀ kr ∈ rpre, ∀ m ∈ kr.2.members, m.atEndpoint g.senderAddress g.port = false)
    (hothers : ∀ m ∈ pre ++ post, m.atEndpoint g.senderAddress g.port = false)
    (hdec : Packet.fromBytes u g.data = .returns (p, rest))
    (hcmd : p.header.command = Command.VOICE_MSG) :
    d.handleDatagram peer u g = .returns (d,
      ((pre ++ post).filter Client.hasUdpEndpoint).map (fun m =>
        { data := Packet.toBytes { p with body := p.body.withSenderId S.id },
          address := m.udpAddress, port := m.udpPort })) := by
  have hfind : d.findClientByAddress g.senderAddress g.port = some S := by
    unfold Impl.findClientByAddress
    rw [hrooms]
    exact Rooms.findMember_append _ rpre rpost k R pre post S hmem hearlier
      (fun m hm => hothers m (by simp [hm])) hS
  have hroom : d.findRoomForUdpClient g.senderAddress g.port = some R := by
    unfold Impl.findRoomForUdpClient
    rw [hrooms]
    exact findRoom_append _ rpre rpost k R S (by simp [hmem]) hS hearlier
  have hc := Packet.fromBytes_command u g.data rest p hdec
  rw [hcmd] at hc
  obtain ⟨msg, hmsg⟩ : ∃ msg, p.body = .voiceMessage msg := by
    cases hb : p.body with
    | voiceMessage msg => exact ⟨msg, rfl⟩
    | createRoom b => rw [hb] at hc; simp [Body.command, Command.CREATE_ROOM, Command.VOICE_MSG] at hc
    | joinRoom b => rw [hb] at hc; simp [Body.command, Command.JOIN_ROOM, Command.VOICE_MSG] at hc
    | ack b => rw [hb] at hc; simp [Body.command, Command.ACK, Command.VOICE_MSG] at hc
  simp only [Impl.handleDatagram, hfind, Impl.relay, hroom, hdec, hcmd, ne_eq, not_true_eq_false,
    if_false, hmsg]
  rw [fanOut_eq_filter, hmem, filter_others _ _ pre post S hS hothers]

/-- C3 (witness): in room 7 the datagram of the first member reaches the second
and the fourth member; the third has no learned endpoint. -/
theorem relay_fanout_witness :
    Packet.fromBytes ⟨0, 0⟩ exampleVoice.data = .returns (voiceOfSize 3 9, [])
      ∧ exampleRelayImpl.handleDatagram examplePeer ⟨0, 0⟩ exampleVoice
          = .returns (exampleRelayImpl,
              [{ data := (voiceOfSize 3 9).toBytes, address := some 101, port := 5001 },
               { data := (voiceOfSize 3 9).toBytes, address := some 103, port := 5003 }]) :=
  ⟨by decide,
   relay_fanout examplePeer ⟨0, 0⟩ exampleRelayImpl exampleVoice 7
     (Room.mk 7 [Client.mk 21 (some 100) 5000 1, Client.mk 22 (some 101) 5001 2,
                 Client.mk 23 none 0 3, Client.mk 24 (some 103) 5003 4])
     [(0, Room.mk 0 [])] [] []
     [Client.mk 22 (some 101) 5001 2, Client.mk 23 none 0 3, Client.mk 24 (some 103) 5003 4]
     (Client.mk 21 (some 100) 5000 1) (voiceOfSize 3 9) []
     rfl rfl (by decide) (by decide) (by decide) (by decide) rfl⟩

/-- Stamping the sender id does not change the encoded packet: `bodyToBytes`
never writes `senderId`. -/
theorem toBytes_withSenderId (p : Packet) (i : Nat) :
    Packet.toBytes { p with body := p.body.withSenderId i } = p.toBytes := by
  cases p with
  | mk header body => cases body <;> rfl

/-- C4: the datagram relayed on behalf of the member with registry id 1 is
byte for byte the inbound datagram; decoding it yields a voice message whose
`senderId` is whatever the decoder left there (here 0 or 77), not 1. -/
theorem relay_senderId_not_carried :
    exampleRelayImpl.handleDatagram examplePeer ⟨0, 0⟩ exampleVoice
        = .returns (exampleRelayImpl,
            [{ data := exampleVoice.data, address := some 101, port := 5001 },
             { data := exampleVoice.data, address := some 103, port := 5003 }])
      ∧ Packet.fromBytes ⟨0, 0⟩ exampleVoice.data
          = .returns ({ header := { version := 0, command := 2, sequenceId := 0, bodySize := 0 },
                        body := .voiceMessage { timestamp := 0, senderId := 0,
                                                samples := [9, 9, 9] } }, [])
      ∧ Packet.fromBytes ⟨0, 77⟩ exampleVoice.data
          = .returns ({ header := { version := 0, command := 2, sequenceId := 0, bodySize := 0 },
                        body := .voiceMessage { timestamp := 0, senderId := 77,
                                                samples := [9, 9, 9] } }, []) := by
  decide

/-! ## Framing on the control channel -/

theorem leValue_leBytes (w v : Nat) : leValue (leBytes w v) = v % 256 ^ w := by
  simp [leValue, leBytes, beValue_beBytes]

theorem leBytes_length (w v : Nat) : (leBytes w v).length = w := by
  simp [leBytes, beBytes_length]

/-- A complete frame at the front of the socket buffer is split off whole:
its payload goes to `handlePacket`, what follows it stays in the socket. -/
theorem readFrame_frame_append (payload rest : Bytes) (h : payload.length < 2 ^ 32) :
    readFrame (frame payload ++ rest) = (some payload, rest) := by
  have hm : payload.length % 2 ^ 32 = payload.length := Nat.mod_eq_of_lt h
  have hl := leBytes_length 4 payload.length
  have ht : List.take 4 (leBytes 4 payload.length ++ (payload ++ rest))
      = leBytes 4 payload.length := by
    rw [List.take_append_eq_append_take, hl]; simp [List.take_of_length_le, hl]
  have hd : List.drop 4 (leBytes 4 payload.length ++ (payload ++ rest)) = payload ++ rest := by
    rw [List.drop_append_eq_append_drop, hl]; simp [List.drop_of_length_le, hl]
  have hv : leValue (leBytes 4 payload.length) = payload.length := by
    rw [leValue_leBytes]; exact Nat.mod_eq_of_lt (by simpa using h)
  have hlen : ¬ (leBytes 4 payload.length ++ (payload ++ rest)).length < 4 := by
    simp [hl]
  have hlen2 : ¬ (leBytes 4 payload.length ++ (payload ++ rest)).length
      < 4 + payload.length := by
    simp [hl]
  unfold readFrame frame
  rw [hm, List.append_assoc, if_neg hlen]
  simp only [ht, hd, hv, if_neg hlen2]
  simp

/-- Two frames that arrive in one read: whatever the payloads, only the first
is handed to `handlePacket`; the second frame stays in the socket. -/
theorem deliver_coalesced (a b : Bytes) (ha : a.length < 2 ^ 32) :
    deliver [] [frame a ++ frame b] = ([a], frame b) := by
  simp [deliver, readFrame_frame_append a (frame b) ha]

/-- One frame per read: every payload is handed over, in order. -/
theorem deliver_frame_per_read (ps : List Bytes) (h : ∀ p ∈ ps, p.length < 2 ^ 32) :
    deliver [] (ps.map frame) = (ps, []) := by
  induction ps with
  | nil => rfl
  | cons p ps ih =>
    have h1 := readFrame_frame_append p [] (h p (by simp))
    simp only [List.append_nil] at h1
    simp [deliver, h1, ih (fun q hq => h q (by simp [hq]))]

/-- C10: when two frames arrive in one read the handler passes only the first
payload to `handlePacket` and the second frame stays in the socket; a frame
arriving later releases the second payload and is itself left behind.  One
frame per read, and one frame split over two reads, are handled in full. -/
theorem deliver_two_frames_in_one_read :
    deliver [] [frame (createRoomRequest 42 1).toBytes ++ frame (joinEmptyName 42 5).toBytes]
        = ([(createRoomRequest 42 1).toBytes], frame (joinEmptyName 42 5).toBytes)
      ∧ deliver [] [frame (createRoomRequest 42 1).toBytes ++ frame (joinEmptyName 42 5).toBytes,
                    frame (createRoomRequest 7 2).toBytes]
        = ([(createRoomRequest 42 1).toBytes, (joinEmptyName 42 5).toBytes],
           frame (createRoomRequest 7 2).toBytes)
      ∧ deliver [] [frame (createRoomRequest 42 1).toBytes, frame (joinEmptyName 42 5).toBytes]
        = ([(createRoomRequest 42 1).toBytes, (joinEmptyName 42 5).toBytes], [])
      ∧ deliver [] [(frame (createRoomRequest 42 1).toBytes).take 3,
                    (frame (createRoomRequest 42 1).toBytes).drop 3]
        = ([(createRoomRequest 42 1).toBytes], []) := by
  decide

/-! ## Header layout -/

theorem readUInt_snd (w : Nat) (s : Bytes) : (readUInt w s).2 = s.drop w := by
  simp only [readUInt, readBlock]
  split <;> rfl

theorem readUInt_of_length (w : Nat) (bs rest : Bytes) (h : bs.length = w) :
    readUInt w (bs ++ rest) = (beValue bs, rest) := by
  simp [readUInt, readBlock, List.take_append_eq_append_take, List.drop_append_eq_append_drop, h]

theorem Header.fromBytes_snd (u : Indeterminate) (s : Bytes) :
    (Header.fromBytes u s).2 = s.drop 7 := by
  simp [Header.fromBytes, readUInt_snd, List.drop_drop]

/-- C13 (amended): for every header, `Header::toBytes` writes 7 bytes: the
version on 1 byte, then the command on 2 bytes, then the sequence id on 4
bytes (each big-endian, reduced to its width); `bodySize` is not written.
`Header::fromBytes` consumes 7 bytes of any stream, hence exactly the bytes
that `toBytes` wrote. -/
theorem Header.toBytes_seven (u : Indeterminate) (h : Header) (s rest : Bytes) :
    h.toBytes.length = 7
      ∧ beValue (h.toBytes.take 1) = h.version % 2 ^ 8
      ∧ beValue ((h.toBytes.drop 1).take 2) = h.command % 2 ^ 16
      ∧ beValue ((h.toBytes.drop 3).take 4) = h.sequenceId % 2 ^ 32
      ∧ (Header.fromBytes u s).2 = s.drop 7
      ∧ (Header.fromBytes u (h.toBytes ++ rest)).2 = rest := by
  have l1 := beBytes_length 1 h.version
  have l2 := beBytes_length 2 h.command
  have l4 := beBytes_length 4 h.sequenceId
  have e1 : h.toBytes.take 1 = beBytes 1 h.version := by
    simp [Header.toBytes, List.take_append_eq_append_take, l1, List.take_of_length_le]
  have e2 : (h.toBytes.drop 1).take 2 = beBytes 2 h.command := by
    simp [Header.toBytes, List.take_append_eq_append_take, List.drop_append_eq_append_drop, l1, l2,
      List.take_of_length_le, List.drop_of_length_le]
  have e3 : (h.toBytes.drop 3).take 4 = beBytes 4 h.sequenceId := by
    simp [Header.toBytes, List.take_append_eq_append_take, List.drop_append_eq_append_drop, l1, l2,
      l4, List.take_of_length_le, List.drop_of_length_le]
  refine ⟨?_, ?_, ?_, ?_, Header.fromBytes_snd u s, ?_⟩
  · simp [Header.toBytes, l1, l2, l4]
  · rw [e1, beValue_beBytes]; norm_num
  · rw [e2, beValue_beBytes]; norm_num
  · rw [e3, beValue_beBytes]; norm_num
  · rw [Header.fromBytes_snd]
    have hl : h.toBytes.length = 7 := by simp [Header.toBytes, l1, l2, l4]
    rw [List.drop_append_eq_append_drop, hl]
    simp [List.drop_of_length_le, hl]

/-- C13 (counterexample): the encoding of a header is 7 bytes long, not 8. -/
theorem Header.toBytes_not_eight : (Header.toBytes ⟨0, 0, 0, 0⟩).length ≠ 8
    ∧ (Header.toBytes ⟨0, 3, 1, 12⟩) = [0, 0, 3, 0, 0, 0, 1] := by
  decide

/-! ## Declared sample count -/

theorem readRawData_replicate (n : Nat) (s : Bytes) (h : n < 2 ^ 31) :
    readRawData (List.replicate n 0) (toInt32 n) s
      = (s.take n ++ List.replicate (n - s.length) 0, s.drop n) := by
  have hnn : ¬ ((n : Nat) : Int) < 0 := by omega
  rw [toInt32_of_lt n h]
  simp only [readRawData, readBlock, if_neg hnn, Int.toNat_ofNat, List.length_take,
    List.drop_replicate]
  have e : n - min n s.length = n - s.length := by omega
  rw [e]

theorem readRawData_replicate_length (n : Nat) (s : Bytes) (h : n < 2 ^ 32) :
    (readRawData (List.replicate n 0) (toInt32 n) s).1.length = n := by
  by_cases h31 : n < 2 ^ 31
  · rw [readRawData_replicate n s h31]
    simp only [List.length_append, List.length_take, List.length_replicate]
    omega
  · have hneg := toInt32_of_ge n (by omega) h
    simp [readRawData, hneg]

theorem beValue_lt (bs : Bytes) (h : ∀ b ∈ bs, b < 256) : beValue bs < 256 ^ bs.length := by
  have key : ∀ (bs : Bytes) (acc : Nat), (∀ b ∈ bs, b < 256) →
      bs.foldl (fun a b => a * 256 + b) acc < (acc + 1) * 256 ^ bs.length := by
    intro bs
    induction bs with
    | nil => intro acc _; simp
    | cons b bs ih =>
      intro acc hb
      have hb0 : b < 256 := hb b (by simp)
      have := ih (acc * 256 + b) (fun x hx => hb x (by simp [hx]))
      simp only [List.foldl_cons, List.length_cons]
      calc List.foldl (fun a b => a * 256 + b) (acc * 256 + b) bs
          < (acc * 256 + b + 1) * 256 ^ bs.length := this
        _ ≤ ((acc + 1) * 256) * 256 ^ bs.length := by
            apply Nat.mul_le_mul_right; omega
        _ = (acc + 1) * 256 ^ (bs.length + 1) := by ring
  have := key bs 0 h
  simpa [beValue] using this

/-- C18 (amended): for every input that carries a VOICE_MSG header, a
timestamp and a 4-byte sample count, the decoded sample sequence has exactly
the declared count as its length, whatever the number of bytes that follow;
when the count is below `2 ^ 31` the bytes present (at most `count`) fill its
front and the remainder is zero. -/
theorem voice_samples_declared_size (u : Indeterminate) (v : Nat)
    (seq ts cnt payload : Bytes)
    (hseq : seq.length = 4) (hts : ts.length = 8) (hcnt : cnt.length = 4)
    (hbytes : ∀ b ∈ cnt, b < 256) :
    Packet.fromBytes u (v :: 0 :: 2 :: (seq ++ (ts ++ (cnt ++ payload))))
        = .returns
            ({ header := { version := v, command := Command.VOICE_MSG,
                           sequenceId := beValue seq, bodySize := u.bodySize },
               body := .voiceMessage
                 { timestamp := beValue ts, senderId := u.senderId,
                   samples := (readRawData (List.replicate (beValue cnt) 0)
                                 (toInt32 (beValue cnt)) payload).1 } },
             (readRawData (List.replicate (beValue cnt) 0) (toInt32 (beValue cnt)) payload).2)
      ∧ (readRawData (List.replicate (beValue cnt) 0) (toInt32 (beValue cnt)) payload).1.length
          = beValue cnt
      ∧ (beValue cnt < 2 ^ 31 →
          (readRawData (List.replicate (beValue cnt) 0) (toInt32 (beValue cnt)) payload).1
            = payload.take (beValue cnt)
                ++ List.replicate (beValue cnt - payload.length) 0) := by
  have hlt : beValue cnt < 2 ^ 32 := by
    have := beValue_lt cnt hbytes
    rw [hcnt] at this
    simpa using this
  have hh : Header.fromBytes u (v :: 0 :: 2 :: (seq ++ (ts ++ (cnt ++ payload))))
      = ({ version := v, command := Command.VOICE_MSG, sequenceId := beValue seq,
           bodySize := u.bodySize }, ts ++ (cnt ++ payload)) := by
    have h1 : readUInt 1 (v :: 0 :: 2 :: (seq ++ (ts ++ (cnt ++ payload))))
        = (v, 0 :: 2 :: (seq ++ (ts ++ (cnt ++ payload)))) := by
      simp [readUInt, readBlock, beValue]
    have h2 : readUInt 2 (0 :: 2 :: (seq ++ (ts ++ (cnt ++ payload))))
        = (2, seq ++ (ts ++ (cnt ++ payload))) := by
      simp [readUInt, readBlock, beValue]
    simp only [Header.fromBytes, h1, h2, readUInt_of_length 4 seq _ hseq, Command.VOICE_MSG]
  refine ⟨?_, ?_, ?_⟩
  · simp only [Packet.fromBytes, hh, bodyFromBytes, Command.VOICE_MSG, Command.CREATE_ROOM,
      Command.JOIN_ROOM, readUInt_of_length 8 ts _ hts, readUInt_of_length 4 cnt _ hcnt]
    simp
  · exact readRawData_replicate_length _ _ hlt
  · intro h31
    simp only [readRawData_replicate _ _ h31]

/-- C18 (witness): a declared count of 5 followed by 2 bytes. -/
theorem voice_samples_declared_size_witness :
    (readRawData (List.replicate (beValue [0, 0, 0, 5]) 0) (toInt32 (beValue [0, 0, 0, 5]))
        [1, 2]).1.length = beValue [0, 0, 0, 5] :=
  (voice_samples_declared_size ⟨0, 0⟩ 0 [0, 0, 0, 1] [0, 0, 0, 0, 0, 0, 0, 9] [0, 0, 0, 5]
    [1, 2] rfl rfl rfl (by decide)).2.1

/-- C18 (counterexample): a VOICE_MSG whose count field says 5 and which
carries 2 sample bytes decodes to 5 samples, more than the 2 bytes that remain
after the count. -/
theorem voice_samples_exceed_input :
    Packet.fromBytes ⟨0, 0⟩
        [0, 0, 2, 0, 0, 0, 1, 0, 0, 0, 0, 0, 0, 0, 9, 0, 0, 0, 5, 1, 2]
      = .returns ({ header := { version := 0, command := 2, sequenceId := 1, bodySize := 0 },
                    body := .voiceMessage { timestamp := 9, senderId := 0,
                                            samples := [1, 2, 0, 0, 0] } }, [])
      ∧ ¬ ([1, 2, 0, 0, 0] : Bytes).length ≤ ([1, 2] : Bytes).length := by
  decide

/-! ## Acknowledgement frames -/

theorem readUInt_lt (w : Nat) (s : Bytes) (h : ∀ b ∈ s, b < 256) : (readUInt w s).1 < 256 ^ w := by
  simp only [readUInt, readBlock]
  split
  · rename_i hl
    have := beValue_lt (s.take w) (fun b hb => h b (List.mem_of_mem_take hb))
    rw [hl] at this
    exact this
  · exact Nat.pos_of_ne_zero (by positivity)

theorem Packet.fromBytes_header (u : Indeterminate) (s rest : Bytes) (p : Packet)
    (h : Packet.fromBytes u s = .returns (p, rest)) : p.header = (Header.fromBytes u s).1 := by
  simp only [Packet.fromBytes] at h
  split at h
  · obtain ⟨rfl, -⟩ := Prod.mk.inj (Run.returns.inj h)
    rfl
  · cases h
  · cases h

theorem Packet.fromBytes_sequenceId_lt (u : Indeterminate) (s rest : Bytes) (p : Packet)
    (hb : ∀ b ∈ s, b < 256) (h : Packet.fromBytes u s = .returns (p, rest)) :
    p.header.sequenceId < 2 ^ 32 := by
  rw [Packet.fromBytes_header u s rest p h]
  simp only [Header.fromBytes]
  have := readUInt_lt 4 (readUInt 2 (readUInt 1 s).2).2 (by
    intro b hbm
    rw [readUInt_snd, readUInt_snd] at hbm
    exact hb b (List.mem_of_mem_drop (List.mem_of_mem_drop hbm)))
  simpa using this

theorem sendAck_eq (tcp : Handle) (s st : Nat) : sendAck tcp s st = sendPacket tcp (ackOf s st) :=
  rfl

theorem ackOf_toBytes_length (s st : Nat) : (ackOf s st).toBytes.length = 12 := by
  simp [ackOf, Packet.toBytes, Header.toBytes, bodyToBytes, beBytes_length]

theorem wire_sendPacket (tcp : Handle) (p : Packet) : wire (sendPacket tcp p) = frame p.toBytes := by
  simp [wire, sendPacket, frame]

/-- C11: for every state (holding room `r` already or not) and every
CREATE_ROOM request (any bytes that decode to one) with sequence id `s`, the
writes of the handler all go to the requesting connection and put exactly one
frame on it: a 4-byte length prefix whose value is the length of what follows,
followed by a packet that decodes to an ACK with `originalSequenceId = s` and
status OK. -/
theorem create_ack_frame (u u2 : Indeterminate) (d : Impl) (tcp : Handle) (data rest : Bytes)
    (p : Packet) (b : CreateRoomBody)
    (hbytes : ∀ x ∈ data, x < 256)
    (hdec : Packet.fromBytes u data = .returns (p, rest)) (hbody : p.body = .createRoom b) :
    ∃ (d2 : Impl) (out : List TcpWrite),
      d.handlePacket u tcp data = .returns (d2, out)
      ∧ (∀ w ∈ out, w.tcp = tcp)
      ∧ wire out = frame (ackOf p.header.sequenceId Status.OK).toBytes
      ∧ leValue ((wire out).take 4) = ((wire out).drop 4).length
      ∧ readFrame (wire out) = (some (ackOf p.header.sequenceId Status.OK).toBytes, [])
      ∧ Packet.fromBytes u2 (ackOf p.header.sequenceId Status.OK).toBytes
          = .returns ({ header := { version := Version.V1, command := Command.ACK,
                                    sequenceId := 0, bodySize := u2.bodySize },
                        body := .ack { originalSequenceId := p.header.sequenceId,
                                       status := Status.OK } }, []) := by
  have hs := Packet.fromBytes_sequenceId_lt u data rest p hbytes hdec
  have hlen := ackOf_toBytes_length p.header.sequenceId Status.OK
  have hw := wire_sendPacket tcp (ackOf p.header.sequenceId Status.OK)
  have hf := readFrame_frame_append (ackOf p.header.sequenceId Status.OK).toBytes []
    (by rw [hlen]; norm_num)
  rw [List.append_nil] at hf
  refine ⟨_, _, handlePacket_create u d tcp data rest p b hdec hbody, ?_, ?_, ?_, ?_, ?_⟩
  · intro w hw2
    simp only [sendAck, sendPacket, List.mem_cons, List.mem_singleton, List.not_mem_nil,
      or_false] at hw2
    rcases hw2 with rfl | rfl <;> rfl
  · rw [sendAck_eq, hw]
  · rw [sendAck_eq, hw]
    have h4 := leBytes_length 4 ((ackOf p.header.sequenceId Status.OK).toBytes.length % 2 ^ 32)
    simp only [frame, List.take_append_eq_append_take, List.drop_append_eq_append_drop, h4,
      leValue_leBytes]
    simp only [hlen] at h4 ⊢
    have e4 : leBytes 4 (12 % 2 ^ 32) = [12, 0, 0, 0] := by decide
    rw [e4]
    simp [hlen, leValue, beValue]
  · rw [sendAck_eq, hw, hf]
  · have hwf : (ackOf p.header.sequenceId Status.OK).WF := by
      simp only [ackOf, Packet.WF, Header.WF, Body.WF, Version.V1, Command.ACK, Status.OK]
      refine ⟨⟨by norm_num, by norm_num, by norm_num⟩, hs, by norm_num⟩
    have := Packet.fromBytes_toBytes_append u2 (ackOf p.header.sequenceId Status.OK) [] hwf rfl
    simpa [ackOf, Body.withSenderId] using this

/-- C11 (witness): handle 11 creates room 7, which exists already, with
sequence id 1. -/
theorem create_ack_frame_witness :
    ∃ (d2 : Impl) (out : List TcpWrite),
      exampleImpl.handlePacket ⟨0, 0⟩ 11 (createRoomRequest 7 1).toBytes = .returns (d2, out)
      ∧ wire out = [12, 0, 0, 0, 0, 0, 3, 0, 0, 0, 0, 0, 0, 0, 1, 0] := by
  obtain ⟨d2, out, h1, -, h3, -⟩ :=
    create_ack_frame ⟨0, 0⟩ ⟨0, 0⟩ exampleImpl 11 (createRoomRequest 7 1).toBytes []
      (createRoomRequest 7 1) { roomId := 7 } (by decide) (by decide) rfl
  exact ⟨d2, out, h1, by rw [h3]; decide⟩

/-! ## Endpoint learning -/

theorem find?_shape {α : Type} (p : α → Bool) (ms : List α) (c : α)
    (h : ms.find? p = some c) :
    ∃ pre post, ms = pre ++ c :: post ∧ (∀ x ∈ pre, p x = false) ∧ p c = true := by
  induction ms with
  | nil => simp at h
  | cons m ms ih =>
    by_cases hm : p m = true
    · simp only [List.find?_cons, hm] at h
      obtain rfl := Option.some.inj h
      exact ⟨[], ms, rfl, by simp, hm⟩
    · have hm2 : p m = false := by simpa using hm
      simp only [List.find?_cons, hm2] at h
      obtain ⟨pre, post, e, h1, h2⟩ := ih h
      refine ⟨m :: pre, post, by rw [e]; rfl, ?_, h2⟩
      intro x hx
      rcases List.mem_cons.mp hx with rfl | hx
      · exact hm2
      · exact h1 x hx

theorem modifyFirstMember_append (p : Client → Bool) (f : Client → Client)
    (pre post : List Client) (c : Client)
    (h1 : ∀ x ∈ pre, p x = false) (h2 : p c = true) :
    modifyFirstMember p f (pre ++ c :: post) = pre ++ f c :: post := by
  induction pre with
  | nil => simp [modifyFirstMember, h2]
  | cons m pre ih =>
    have hm : p m = false := h1 m (by simp)
    have ih2 := ih (fun x hx => h1 x (by simp [hx]))
    simp [modifyFirstMember, hm, ih2]

theorem Rooms.findMember_none (p : Client → Bool) (rooms : Rooms)
    (h : Rooms.findMember p rooms = none) :
    ∀ kr ∈ rooms, ∀ m ∈ kr.2.members, p m = false := by
  induction rooms with
  | nil => intro kr hkr; simp at hkr
  | cons kr0 rest ih =>
    simp only [Rooms.findMember] at h
    cases hf : kr0.2.members.find? p with
    | some c => rw [hf] at h; cases h
    | none =>
      rw [hf] at h
      intro kr hkr m hm
      rcases List.mem_cons.mp hkr with rfl | hkr
      · have := List.find?_eq_none.mp hf m hm
        simpa using this
      · exact ih h kr hkr m hm

/-- Shape of a successful member search: the room and the position of the
first match, and the effect of writing through the returned pointer. -/
theorem Rooms.findMember_shape (p : Client → Bool) (f : Client → Client) (rooms : Rooms)
    (c : Client) (h : Rooms.findMember p rooms = some c) :
    ∃ (rpre : Rooms) (k : Nat) (R : Room) (rpost : Rooms) (pre post : List Client),
      rooms = rpre ++ (k, R) :: rpost
      ∧ R.members = pre ++ c :: post
      ∧ (∀ kr ∈ rpre, ∀ m ∈ kr.2.members, p m = false)
      ∧ (∀ m ∈ pre, p m = false)
      ∧ p c = true
      ∧ Rooms.modifyFirstMember p f rooms
          = rpre ++ (k, { R with members := pre ++ f c :: post }) :: rpost := by
  induction rooms with
  | nil => simp [Rooms.findMember] at h
  | cons kr0 rest ih =>
    simp only [Rooms.findMember] at h
    cases hf : kr0.2.members.find? p with
    | some c0 =>
      rw [hf] at h
      obtain rfl := Option.some.inj h
      obtain ⟨pre, post, e, h1, h2⟩ := find?_shape p _ _ hf
      refine ⟨[], kr0.1, kr0.2, rest, pre, post, rfl, e, by simp, h1, h2, ?_⟩
      have hany : kr0.2.members.any p = true := by
        rw [List.any_eq_true]; exact ⟨c0, by rw [e]; simp, h2⟩
      simp only [Rooms.modifyFirstMember, hany, if_true, List.nil_append]
      rw [e, modifyFirstMember_append p f pre post c0 h1 h2]
    | none =>
      rw [hf] at h
      obtain ⟨rpre, k, R, rpost, pre, post, e, hm, h1, h2, h3, h4⟩ := ih h
      have hnone : ∀ m ∈ kr0.2.members, p m = false := by
        intro m hm2
        have := List.find?_eq_none.mp hf m hm2
        simpa using this
      refine ⟨kr0 :: rpre, k, R, rpost, pre, post, by rw [e]; rfl, hm, ?_, h2, h3, ?_⟩
      · intro kr hkr m hm2
        rcases List.mem_cons.mp hkr with rfl | hkr
        · exact hnone m hm2
        · exact h1 kr hkr m hm2
      · have hany : kr0.2.members.any p = false := by
          rw [List.any_eq_false]; intro m hm2; simp [hnone m hm2]
        simp only [Rooms.modifyFirstMember, hany, Bool.false_eq_true, if_false, h4,
          List.cons_append]

theorem relay_state (u : Indeterminate) (d d2 : Impl) (c : Client) (g : Datagram)
    (out : List UdpWrite) (h : d.relay u c g = .returns (d2, out)) : d2 = d := by
  unfold Impl.relay at h
  split at h
  · exact ((Prod.mk.inj (Run.returns.inj h)).1).symm
  · split at h
    · cases h
    · cases h
    · split at h
      · exact ((Prod.mk.inj (Run.returns.inj h)).1).symm
      · split at h
        · exact ((Prod.mk.inj (Run.returns.inj h)).1).symm
        · cases h

theorem unlearnedAt_iff (peer : Handle → HostAddress) (A : HostAddress) (c : Client) :
    c.unlearnedAt peer A = true ↔ peer c.tcp = A ∧ c.udpPort = 0 := by
  simp [Client.unlearnedAt, Client.hasUdpEndpoint]

/-- C17: handling a datagram leaves the pending set and the id counter alone
and either leaves every room as it was or rewrites the endpoint of exactly one
member, one that had no learned endpoint; every other member, in particular
every member with a learned endpoint, keeps its record. -/
theorem handleDatagram_learns_one (peer : Handle → HostAddress) (u : Indeterminate)
    (d d2 : Impl) (g : Datagram) (out : List UdpWrite)
    (h : d.handleDatagram peer u g = .returns (d2, out)) :
    d2.pending = d.pending ∧ d2.nextClientId = d.nextClientId
      ∧ (d2.rooms = d.rooms
          ∨ ∃ (rpre : Rooms) (k : Nat) (R : Room) (rpost : Rooms) (pre post : List Client)
              (c : Client),
              d.rooms = rpre ++ (k, R) :: rpost
              ∧ R.members = pre ++ c :: post
              ∧ c.hasUdpEndpoint = false
              ∧ d2.rooms
                  = rpre ++ (k, Room.mk R.id (pre ++ c.learn g.senderAddress g.port :: post))
                      :: rpost) := by
  unfold Impl.handleDatagram at h
  split at h
  · obtain rfl := relay_state u _ _ _ _ _ h
    exact ⟨rfl, rfl, Or.inl rfl⟩
  · split at h
    · rename_i c hc
      obtain rfl := relay_state u _ _ _ _ _ h
      refine ⟨rfl, rfl, Or.inr ?_⟩
      obtain ⟨rpre, k, R, rpost, pre, post, e, hm, -, -, hp, hmod⟩ :=
        Rooms.findMember_shape _ (Client.learn g.senderAddress g.port) d.rooms c hc
      refine ⟨rpre, k, R, rpost, pre, post, c, e, hm, ?_, hmod⟩
      have := (unlearnedAt_iff peer g.senderAddress c).mp hp
      simp [Client.hasUdpEndpoint, this.2]
    · obtain ⟨rfl, -⟩ := Prod.mk.inj (Run.returns.inj h)
      exact ⟨rfl, rfl, Or.inl rfl⟩

theorem learn_atEndpoint (A : HostAddress) (P : Nat) (c : Client) :
    (c.learn A P).atEndpoint A P = true := by
  simp [Client.learn, Client.atEndpoint]

/-- C19: when the sender of a datagram from `(A, P)` is resolved, by its
stored endpoint or by learning, `findRoomForUdpClient(A, P)` returns a room,
and that room holds the resolved client record: the room lookup cannot fail and
the fan-out room is the room of the sender. -/
theorem resolved_sender_room (peer : Handle → HostAddress) (d : Impl) (A : HostAddress)
    (P : Nat) (c : Client) :
    (d.findClientByAddress A P = some c →
        ∃ R, d.findRoomForUdpClient A P = some R ∧ c ∈ R.members)
      ∧ (d.findClientByAddress A P = none → d.findClientByTcpPeer peer A = some c →
          ∃ R, Impl.findRoomForUdpClient
                  { d with rooms := d.rooms.modifyFirstMember (Client.unlearnedAt peer A)
                                      (Client.learn A P) } A P = some R
            ∧ c.learn A P ∈ R.members) := by
  constructor
  · intro h
    obtain ⟨rpre, k, R, rpost, pre, post, e, hm, h1, -, hp, -⟩ :=
      Rooms.findMember_shape _ id d.rooms c h
    refine ⟨R, ?_, by rw [hm]; simp⟩
    unfold Impl.findRoomForUdpClient
    rw [e]
    exact findRoom_append _ rpre rpost k R c (by rw [hm]; simp) hp h1
  · intro hnone h
    obtain ⟨rpre, k, R, rpost, pre, post, e, hm, -, -, -, hmod⟩ :=
      Rooms.findMember_shape _ (Client.learn A P) d.rooms c h
    have hno := Rooms.findMember_none _ d.rooms hnone
    refine ⟨{ R with members := pre ++ c.learn A P :: post }, ?_, by simp⟩
    unfold Impl.findRoomForUdpClient
    simp only [hmod]
    refine findRoom_append _ rpre rpost k _ (c.learn A P) (by simp) (learn_atEndpoint A P c) ?_
    intro kr hkr m hm2
    exact hno kr (by rw [e]; simp [hkr]) m hm2

/-- C17 (witness): the third member of room 7 learns its endpoint from a
datagram sent from its peer address; the three other members are served. -/
theorem handleDatagram_learns_one_witness :
    exampleRelayImpl.handleDatagram examplePeer ⟨0, 0⟩ exampleLearn
        = .returns (exampleLearned, exampleLearnOut)
      ∧ exampleLearned.pending = exampleRelayImpl.pending
      ∧ exampleLearned.nextClientId = exampleRelayImpl.nextClientId :=
  ⟨by decide,
   (handleDatagram_learns_one examplePeer ⟨0, 0⟩ exampleRelayImpl exampleLearned exampleLearn
      exampleLearnOut (by decide)).1,
   (handleDatagram_learns_one examplePeer ⟨0, 0⟩ exampleRelayImpl exampleLearned exampleLearn
      exampleLearnOut (by decide)).2.1⟩

/-- C19 (witness): the first member of room 7 is found by its endpoint, the
third by learning. -/
theorem resolved_sender_room_witness :
    (∃ R, exampleRelayImpl.findRoomForUdpClient (some 100) 5000 = some R
        ∧ Client.mk 21 (some 100) 5000 1 ∈ R.members)
      ∧ (∃ R, exampleLearned.findRoomForUdpClient (some 102) 6000 = some R
        ∧ Client.mk 23 (some 102) 6000 3 ∈ R.members) :=
  ⟨(resolved_sender_room examplePeer exampleRelayImpl (some 100) 5000
      (Client.mk 21 (some 100) 5000 1)).1 (by decide),
   (resolved_sender_room examplePeer exampleRelayImpl (some 102) 6000
      (Client.mk 23 none 0 3)).2 (by decide) (by decide)⟩

/-! ## Runs of the server: the effect of one step -/

theorem Rooms.allMembers_append (a b : Rooms) :
    Rooms.allMembers (a ++ b) = Rooms.allMembers a ++ Rooms.allMembers b := by
  induction a with
  | nil => rfl
  | cons kr rest ih => simp [Rooms.allMembers, ih]

theorem Rooms.mem_allMembers (rooms : Rooms) (c : Client) :
    c ∈ Rooms.allMembers rooms ↔ ∃ kr ∈ rooms, c ∈ kr.2.members := by
  induction rooms with
  | nil => simp [Rooms.allMembers]
  | cons kr rest ih => simp [Rooms.allMembers, ih]

theorem Rooms.allMembers_replace (rooms : Rooms) (k : Nat) (R R0 : Room)
    (h : rooms.find k = some R0) :
    ∃ L1 old L2, Rooms.allMembers rooms = L1 ++ old ++ L2
      ∧ Rooms.allMembers (rooms.replace k R) = L1 ++ R.members ++ L2 := by
  induction rooms with
  | nil => simp [Rooms.find] at h
  | cons kr rest ih =>
    by_cases hk : kr.1 = k
    · exact ⟨[], kr.2.members, Rooms.allMembers rest, by simp [Rooms.allMembers],
        by simp [Rooms.replace, hk, Rooms.allMembers]⟩
    · simp only [Rooms.find, hk, if_false] at h
      obtain ⟨L1, old, L2, e1, e2⟩ := ih h
      exact ⟨kr.2.members ++ L1, old, L2, by simp [Rooms.allMembers, e1],
        by simp [Rooms.replace, hk, Rooms.allMembers, e2]⟩

theorem Rooms.allMembers_assign (rooms : Rooms) (k : Nat) (R : Room) :
    ∃ L1 old L2, Rooms.allMembers rooms = L1 ++ old ++ L2
      ∧ Rooms.allMembers (rooms.assign k R) = L1 ++ R.members ++ L2 := by
  unfold Rooms.assign
  cases h : rooms.find k with
  | some R0 => exact Rooms.allMembers_replace rooms k R R0 h
  | none => exact ⟨[], [], Rooms.allMembers rooms, by simp, by simp [Rooms.allMembers]⟩

theorem Rooms.allMembers_modify_addMember (rooms : Rooms) (k : Nat) (c : Client) (R : Room)
    (hf : rooms.find k = some R) :
    ∃ L1 L2, Rooms.allMembers rooms = L1 ++ L2
      ∧ Rooms.allMembers (rooms.modify k (fun r => r.addMember c)) = L1 ++ c :: L2 := by
  induction rooms with
  | nil => simp [Rooms.find] at hf
  | cons kr rest ih =>
    by_cases h : kr.1 = k
    · exact ⟨kr.2.members, Rooms.allMembers rest, by simp [Rooms.allMembers],
        by simp [Rooms.modify, h, Rooms.allMembers, Room.addMember]⟩
    · simp only [Rooms.find, h, if_false] at hf
      obtain ⟨L1, L2, e1, e2⟩ := ih hf
      exact ⟨kr.2.members ++ L1, L2, by simp [Rooms.allMembers, e1],
        by simp [Rooms.modify, h, Rooms.allMembers, e2]⟩

theorem Rooms.allMembers_removeMember (rooms : Rooms) (tcp : Handle) :
    Rooms.allMembers (rooms.map (fun kr => (kr.1, kr.2.removeMember tcp)))
      = (Rooms.allMembers rooms).filter (fun c => !(c.tcp == tcp)) := by
  induction rooms with
  | nil => rfl
  | cons kr rest ih =>
    simp only [List.map_cons, Rooms.allMembers, ih, List.filter_append]
    rfl

/-- The three ways `handlePacket` can return: a room was created, a room was
joined, or the state is unchanged. -/
theorem handlePacket_cases (u : Indeterminate) (d d2 : Impl) (tcp : Handle) (data : Bytes)
    (out : List TcpWrite) (h : d.handlePacket u tcp data = .returns (d2, out)) :
    d2 = d
      ∨ (∃ k, d2 = { pending := pendingErase d.pending tcp,
                     rooms := d.rooms.assign k (Room.mk k [Client.mk tcp none 0 d.nextClientId]),
                     nextClientId := (d.nextClientId + 1) % 2 ^ 32 })
      ∨ (∃ k R, d.rooms.find k = some R
            ∧ d2 = { pending := pendingErase d.pending tcp,
                     rooms := d.rooms.modify k (fun r =>
                       r.addMember (Client.mk tcp none 0 d.nextClientId)),
                     nextClientId := (d.nextClientId + 1) % 2 ^ 32 }) := by
  unfold Impl.handlePacket at h
  split at h
  · cases h
  · cases h
  · split at h
    · split at h
      · obtain ⟨rfl, -⟩ := Prod.mk.inj (Run.returns.inj h)
        exact Or.inr (Or.inl ⟨_, rfl⟩)
      · cases h
    · split at h
      · split at h
        · split at h
          · obtain ⟨rfl, -⟩ := Prod.mk.inj (Run.returns.inj h)
            exact Or.inl rfl
          · rename_i R hf
            obtain ⟨rfl, -⟩ := Prod.mk.inj (Run.returns.inj h)
            exact Or.inr (Or.inr ⟨_, R, hf, rfl⟩)
        · cases h
      · obtain ⟨rfl, -⟩ := Prod.mk.inj (Run.returns.inj h)
        exact Or.inl rfl

/-- The effect of one step on the member records, the pending set and the id
counter: nothing but the pending set changes, or the records of one handle are
removed, or one new record replaces the records of a room, or one record
without learned endpoint learns an endpoint that no record carried. -/
theorem step_effect (peer : Handle → HostAddress) (d d2 : Impl) (e : Event)
    (h : d.step peer e = .returns d2) :
    (d2.members = d.members ∧ d2.nextClientId = d.nextClientId
        ∧ (d2.pending = d.pending
            ∨ ∃ tcp, e = .connect tcp ∧ d2.pending = pendingInsert d.pending tcp))
      ∨ (∃ tcp, d2.members = d.members.filter (fun c => !(c.tcp == tcp))
            ∧ d2.pending = pendingErase d.pending tcp ∧ d2.nextClientId = d.nextClientId)
      ∨ (∃ u tcp data L1 old L2, e = .packet u tcp data
            ∧ d.members = L1 ++ old ++ L2
            ∧ d2.members = L1 ++ Client.mk tcp none 0 d.nextClientId :: L2
            ∧ d2.pending = pendingErase d.pending tcp
            ∧ d2.nextClientId = (d.nextClientId + 1) % 2 ^ 32)
      ∨ (∃ A P L1 c L2, d.members = L1 ++ c :: L2
            ∧ c.unlearnedAt peer A = true
            ∧ (∀ m ∈ d.members, m.atEndpoint A P = false)
            ∧ d2.members = L1 ++ c.learn A P :: L2
            ∧ d2.pending = d.pending ∧ d2.nextClientId = d.nextClientId) := by
  cases e with
  | connect tcp =>
    simp only [Impl.step] at h
    obtain rfl := Run.returns.inj h
    exact Or.inl ⟨rfl, rfl, Or.inr ⟨tcp, rfl, rfl⟩⟩
  | disconnect tcp =>
    simp only [Impl.step] at h
    obtain rfl := Run.returns.inj h
    refine Or.inr (Or.inl ⟨tcp, ?_, rfl, rfl⟩)
    exact Rooms.allMembers_removeMember d.rooms tcp
  | packet u tcp data =>
    simp only [Impl.step] at h
    split at h
    · rename_i r hr
      obtain rfl := Run.returns.inj h
      obtain ⟨d3, out⟩ := r
      rcases handlePacket_cases u d d3 tcp data out hr with rfl | ⟨k, rfl⟩ | ⟨k, R, hf, rfl⟩
      · exact Or.inl ⟨rfl, rfl, Or.inl rfl⟩
      · obtain ⟨L1, old, L2, e1, e2⟩ := Rooms.allMembers_assign d.rooms k
          (Room.mk k [Client.mk tcp none 0 d.nextClientId])
        refine Or.inr (Or.inr (Or.inl ⟨u, tcp, data, L1, old, L2, rfl, e1, ?_, rfl, rfl⟩))
        simp only [Impl.members, e2]
        simp
      · obtain ⟨L1, L2, e1, e2⟩ := Rooms.allMembers_modify_addMember d.rooms k
          (Client.mk tcp none 0 d.nextClientId) R hf
        refine Or.inr (Or.inr (Or.inl ⟨u, tcp, data, L1, [], L2, rfl, ?_, ?_, rfl, rfl⟩))
        · simp only [Impl.members, e1]; simp
        · simp only [Impl.members, e2]
    · cases h
    · cases h
  | datagram u g =>
    simp only [Impl.step] at h
    split at h
    · rename_i r hr
      obtain rfl := Run.returns.inj h
      obtain ⟨d3, out⟩ := r
      unfold Impl.handleDatagram at hr
      split at hr
      · obtain rfl := relay_state u _ _ _ _ _ hr
        exact Or.inl ⟨rfl, rfl, Or.inl rfl⟩
      · rename_i hnone
        split at hr
        · rename_i c hc
          obtain rfl := relay_state u _ _ _ _ _ hr
          obtain ⟨rpre, k, R, rpost, pre, post, e, hm, -, -, hp, hmod⟩ :=
            Rooms.findMember_shape _ (Client.learn g.senderAddress g.port) d.rooms c hc
          have hno := Rooms.findMember_none _ d.rooms hnone
          refine Or.inr (Or.inr (Or.inr ⟨g.senderAddress, g.port,
            Rooms.allMembers rpre ++ pre, c, post ++ Rooms.allMembers rpost, ?_, hp, ?_, ?_,
            rfl, rfl⟩))
          · simp only [Impl.members, e, Rooms.allMembers_append, Rooms.allMembers, hm]
            simp
          · intro m hm2
            obtain ⟨kr, hkr, hm3⟩ := (Rooms.mem_allMembers d.rooms m).mp hm2
            exact hno kr hkr m hm3
          · simp only [Impl.members, hmod, Rooms.allMembers_append, Rooms.allMembers]
            simp
        · obtain ⟨rfl, -⟩ := Prod.mk.inj (Run.returns.inj hr)
          exact Or.inl ⟨rfl, rfl, Or.inl rfl⟩
    · cases h
    · cases h


/-! ## Invariants of reachable states -/

theorem Rooms.allMembers_perm (r1 r2 : Rooms) (h : List.Perm r1 r2) :
    List.Perm (Rooms.allMembers r1) (Rooms.allMembers r2) := by
  induction h with
  | nil => exact List.Perm.refl _
  | cons x _ ih => exact List.Perm.append_left _ ih
  | swap x y l =>
    simp only [Rooms.allMembers]
    exact List.perm_append_comm_assoc _ _ _
  | trans _ _ ih1 ih2 => exact ih1.trans ih2

theorem members_reorder (d : Impl) (rooms2 : Rooms) (h : List.Perm d.rooms rooms2) :
    List.Perm d.members (Impl.members { d with rooms := rooms2 }) :=
  Rooms.allMembers_perm _ _ h

theorem assignedBy_same (d d2 : Impl) (h : d2.nextClientId = d.nextClientId) :
    d.assignedBy d2 = [] := by
  simp [Impl.assignedBy, h]

theorem nodup_insert_middle {α : Type} (L1 old L2 : List α) (a : α)
    (h : (L1 ++ old ++ L2).Nodup) (ha : a ∉ L1 ++ L2) : (L1 ++ a :: L2).Nodup := by
  have hs : List.Sublist (L1 ++ L2) (L1 ++ old ++ L2) := by
    rw [List.append_assoc]
    exact List.Sublist.append (List.Sublist.refl L1) (List.sublist_append_right old L2)
  have h2 := h.sublist hs
  rw [List.nodup_middle]
  exact List.nodup_cons.mpr ⟨ha, h2⟩

/-- The endpoint stored in a client record. -/
theorem atEndpoint_iff (A : HostAddress) (P : Nat) (c : Client) :
    c.atEndpoint A P = true ↔ c.udpAddress = A ∧ c.udpPort = P := by
  simp [Client.atEndpoint]

theorem learned_keys_insert (L1 old L2 : List Client) (tcp id : Nat)
    (h : (((L1 ++ old ++ L2).filter Client.hasUdpEndpoint).map
            (fun c => (c.udpAddress, c.udpPort))).Nodup) :
    (((L1 ++ Client.mk tcp none 0 id :: L2).filter Client.hasUdpEndpoint).map
            (fun c => (c.udpAddress, c.udpPort))).Nodup := by
  have hs : List.Sublist (L1 ++ L2) (L1 ++ old ++ L2) := by
    rw [List.append_assoc]
    exact List.Sublist.append (List.Sublist.refl L1) (List.sublist_append_right old L2)
  have e : (L1 ++ Client.mk tcp none 0 id :: L2).filter Client.hasUdpEndpoint
      = (L1 ++ L2).filter Client.hasUdpEndpoint := by
    simp [List.filter_append, List.filter_cons, Client.hasUdpEndpoint]
  rw [e]
  exact h.sublist ((hs.filter _).map _)

theorem learned_keys_learn (peer : Handle → HostAddress) (L1 L2 : List Client) (c : Client)
    (A : HostAddress) (P : Nat)
    (hc : c.unlearnedAt peer A = true)
    (hno : ∀ m ∈ L1 ++ c :: L2, m.atEndpoint A P = false)
    (h : (((L1 ++ c :: L2).filter Client.hasUdpEndpoint).map
            (fun c => (c.udpAddress, c.udpPort))).Nodup) :
    (((L1 ++ c.learn A P :: L2).filter Client.hasUdpEndpoint).map
            (fun c => (c.udpAddress, c.udpPort))).Nodup := by
  have hc0 : c.hasUdpEndpoint = false := by
    have := (unlearnedAt_iff peer A c).mp hc
    simp [Client.hasUdpEndpoint, this.2]
  have e0 : (L1 ++ c :: L2).filter Client.hasUdpEndpoint
      = L1.filter Client.hasUdpEndpoint ++ L2.filter Client.hasUdpEndpoint := by
    simp [List.filter_append, List.filter_cons, hc0]
  rw [e0] at h
  by_cases hP : P = 0
  · have hl : (c.learn A P).hasUdpEndpoint = false := by
      simp [Client.learn, Client.hasUdpEndpoint, hP]
    have e1 : (L1 ++ c.learn A P :: L2).filter Client.hasUdpEndpoint
        = L1.filter Client.hasUdpEndpoint ++ L2.filter Client.hasUdpEndpoint := by
      simp [List.filter_append, List.filter_cons, hl]
    rw [e1]; exact h
  · have hl : (c.learn A P).hasUdpEndpoint = true := by
      simp [Client.learn, Client.hasUdpEndpoint, hP]
    have e1 : (L1 ++ c.learn A P :: L2).filter Client.hasUdpEndpoint
        = L1.filter Client.hasUdpEndpoint ++ c.learn A P :: L2.filter Client.hasUdpEndpoint := by
      simp [List.filter_append, List.filter_cons, hl]
    rw [e1, List.map_append, List.map_cons, List.nodup_middle]
    rw [List.map_append] at h
    refine List.nodup_cons.mpr ⟨?_, h⟩
    intro hmem
    rw [← List.map_append, List.mem_map] at hmem
    obtain ⟨m, hm, hme⟩ := hmem
    have hm2 : m ∈ L1 ++ c :: L2 := by
      rcases List.mem_append.mp hm with hm | hm
      · exact List.mem_append.mpr (Or.inl (List.mem_of_mem_filter hm))
      · exact List.mem_append.mpr (Or.inr (List.mem_cons_of_mem _ (List.mem_of_mem_filter hm)))
    have := hno m hm2
    have hat : m.atEndpoint A P = true := by
      rw [atEndpoint_iff]
      simp only [Client.learn, Prod.mk.injEq] at hme
      exact hme
    rw [hat] at this
    cases this

/-- In every reachable state the members with a learned endpoint have pairwise
distinct endpoints. -/
theorem reachable_learned_nodup (peer : Handle → HostAddress) (ok : Impl → Event → Prop)
    (d : Impl) (ids : List Nat) (h : Reachable peer ok d ids) :
    ((d.members.filter Client.hasUdpEndpoint).map (fun c => (c.udpAddress, c.udpPort))).Nodup := by
  induction h with
  | init => simp [Impl.init, Impl.members, Rooms.allMembers]
  | listened => simp [Impl.init, Impl.listen, Impl.members, Rooms.assign, Rooms.allMembers]
  | step d d2 ids e _ _ hs ih =>
    rcases step_effect peer d d2 e hs with ⟨hm, -, -⟩ | ⟨tcp, hm, -, -⟩ |
      ⟨u, tcp, data, L1, old, L2, -, e1, e2, -, -⟩ | ⟨A, P, L1, c, L2, e1, hc, hno, e2, -, -⟩
    · rw [hm]; exact ih
    · rw [hm]
      exact ih.sublist (((List.filter_sublist _).filter _).map _)
    · rw [e2]; rw [e1] at ih
      exact learned_keys_insert L1 old L2 tcp d.nextClientId ih
    · rw [e2]; rw [e1] at ih hno
      exact learned_keys_learn peer L1 L2 c A P hc hno ih
  | reorder d rooms2 ids _ hp ih =>
    exact ((((members_reorder d rooms2 hp).filter _).map _).nodup_iff).mp ih

theorem Rooms.members_sublist (rooms : Rooms) (kr : Nat × Room) (h : kr ∈ rooms) :
    List.Sublist kr.2.members (Rooms.allMembers rooms) := by
  induction rooms with
  | nil => simp at h
  | cons kr0 rest ih =>
    rcases List.mem_cons.mp h with rfl | h
    · exact List.sublist_append_left _ _
    · exact (ih h).trans (List.sublist_append_right _ _)

/-- C20: in every reachable state the learned endpoints of all members of all
rooms are pairwise distinct; hence, for a member `S` with a learned endpoint,
the skip test of the fan-out loop over the room of `S` rejects `S` and accepts
every other member of the room. -/
theorem learned_endpoints_distinct (peer : Handle → HostAddress) (d : Impl) (ids : List Nat)
    (h : Reachable peer anyEvent d ids) :
    ((d.members.filter Client.hasUdpEndpoint).map (fun c => (c.udpAddress, c.udpPort))).Nodup
      ∧ ∀ kr ∈ d.rooms, ∀ (pre post : List Client) (S : Client),
          kr.2.members = pre ++ S :: post → S.hasUdpEndpoint = true →
          (∀ m ∈ pre ++ post, m.atEndpoint S.udpAddress S.udpPort = false)
          ∧ kr.2.members.filter (fun m => !(m.atEndpoint S.udpAddress S.udpPort))
              = pre ++ post := by
  have hn := reachable_learned_nodup peer anyEvent d ids h
  refine ⟨hn, ?_⟩
  intro kr hkr pre post S hm hS
  have hsub := Rooms.members_sublist d.rooms kr hkr
  have hn2 := hn.sublist ((hsub.filter _).map _)
  rw [hm] at hn2
  have e1 : (pre ++ S :: post).filter Client.hasUdpEndpoint
      = pre.filter Client.hasUdpEndpoint ++ S :: post.filter Client.hasUdpEndpoint := by
    simp [List.filter_append, List.filter_cons, hS]
  rw [e1, List.map_append, List.map_cons, List.nodup_middle, List.nodup_cons] at hn2
  have hothers : ∀ m ∈ pre ++ post, m.atEndpoint S.udpAddress S.udpPort = false := by
    intro m hmem
    by_contra hne
    have hat : m.atEndpoint S.udpAddress S.udpPort = true := by simpa using hne
    obtain ⟨ha, hp⟩ := (atEndpoint_iff _ _ m).mp hat
    have hml : m.hasUdpEndpoint = true := by
      simp only [Client.hasUdpEndpoint] at hS ⊢
      rw [hp]; exact hS
    apply hn2.1
    rw [← List.map_append, ← List.filter_append, List.mem_map]
    exact ⟨m, List.mem_filter.mpr ⟨hmem, hml⟩, by rw [ha, hp]⟩
  refine ⟨hothers, ?_⟩
  rw [hm]
  exact filter_others _ _ pre post S (by simp [Client.atEndpoint]) hothers


/-- In every state reached with fresh connects, no member handle is pending. -/
theorem reachable_member_not_pending (peer : Handle → HostAddress)
    (ok : Impl → Event → Prop) (hfresh : ∀ d e, ok d e → freshConnect d e)
    (d : Impl) (ids : List Nat) (h : Reachable peer ok d ids) :
    ∀ c ∈ d.members, c.tcp ∉ d.pending := by
  induction h with
  | init => simp [Impl.init, Impl.members, Rooms.allMembers]
  | listened => simp [Impl.init, Impl.listen, Impl.members, Rooms.assign, Rooms.find, Rooms.allMembers]
  | step d d2 ids e _ hok0 hs ih =>
    have hok := hfresh d e hok0
    rcases step_effect peer d d2 e hs with ⟨hm, -, hp⟩ | ⟨tcp, hm, hp, -⟩ |
      ⟨u, tcp, data, L1, old, L2, rfl, e1, e2, hp, -⟩ | ⟨A, P, L1, c, L2, e1, hc, hno, e2, hp, -⟩
    · rw [hm]
      rcases hp with hp | ⟨tcp, rfl, hp⟩
      · rw [hp]; exact ih
      · rw [hp]
        simp only [freshConnect] at hok
        intro c hc hmem
        simp only [pendingInsert] at hmem
        split at hmem
        · exact ih c hc hmem
        · rcases List.mem_cons.mp hmem with heq | hmem
          · exact hok.2 c hc heq
          · exact ih c hc hmem
    · rw [hm, hp]
      intro c hc hmem
      exact ih c (List.mem_of_mem_filter hc) (List.mem_of_mem_filter hmem)
    · rw [e2, hp]
      intro c hc hmem
      simp only [pendingErase, List.mem_filter] at hmem
      rcases List.mem_append.mp hc with hc | hc
      · exact ih c (by rw [e1]; simp [hc]) hmem.1
      · rcases List.mem_cons.mp hc with rfl | hc
        · simpa using hmem.2
        · exact ih c (by rw [e1]; simp [hc]) hmem.1
    · rw [e2, hp]
      intro m hm hmem
      rcases List.mem_append.mp hm with hm | hm
      · exact ih m (by rw [e1]; simp [hm]) hmem
      · rcases List.mem_cons.mp hm with rfl | hm
        · exact ih c (by rw [e1]; simp) (by simpa [Client.learn] using hmem)
        · exact ih m (by rw [e1]; simp [hm]) hmem
  | reorder d rooms2 ids _ hp ih =>
    intro c hc
    exact ih c ((members_reorder d rooms2 hp).mem_iff.mpr hc)

/-- C16: in every state reachable by events in which each connect introduces
a handle that the directory does not hold, no member of any room has a control
handle that is in the pending set. -/
theorem pending_not_member (peer : Handle → HostAddress) (d : Impl) (ids : List Nat)
    (h : Reachable peer freshConnect d ids) :
    ∀ c ∈ d.members, c.tcp ∉ d.pending :=
  reachable_member_not_pending peer freshConnect (fun _ _ h => h) d ids h

/-- In every reachable state the address stored in a member record is null or
the peer address of the member's control connection. -/
theorem reachable_address_from_peer (peer : Handle → HostAddress) (ok : Impl → Event → Prop)
    (d : Impl) (ids : List Nat) (h : Reachable peer ok d ids) :
    ∀ c ∈ d.members, c.udpAddress = none ∨ c.udpAddress = peer c.tcp := by
  induction h with
  | init => simp [Impl.init, Impl.members, Rooms.allMembers]
  | listened => simp [Impl.init, Impl.listen, Impl.members, Rooms.assign, Rooms.find, Rooms.allMembers]
  | step d d2 ids e _ hok hs ih =>
    rcases step_effect peer d d2 e hs with ⟨hm, -, -⟩ | ⟨tcp, hm, -, -⟩ |
      ⟨u, tcp, data, L1, old, L2, rfl, e1, e2, -, -⟩ | ⟨A, P, L1, c, L2, e1, hc, hno, e2, -, -⟩
    · rw [hm]; exact ih
    · rw [hm]
      intro c hc
      exact ih c (List.mem_of_mem_filter hc)
    · rw [e2]
      intro c hc
      rcases List.mem_append.mp hc with hc | hc
      · exact ih c (by rw [e1]; simp [hc])
      · rcases List.mem_cons.mp hc with rfl | hc
        · exact Or.inl rfl
        · exact ih c (by rw [e1]; simp [hc])
    · rw [e2]
      intro m hm
      rcases List.mem_append.mp hm with hm | hm
      · exact ih m (by rw [e1]; simp [hm])
      · rcases List.mem_cons.mp hm with rfl | hm
        · right
          have := (unlearnedAt_iff peer A c).mp hc
          simp [Client.learn, this.1]
        · exact ih m (by rw [e1]; simp [hm])
  | reorder d rooms2 ids _ hp ih =>
    intro c hc
    exact ih c ((members_reorder d rooms2 hp).mem_iff.mpr hc)


theorem assignedBy_next (d d2 : Impl)
    (h : d2.nextClientId = (d.nextClientId + 1) % 2 ^ 32) :
    d.assignedBy d2 = [d.nextClientId] := by
  have hne : ¬ d2.nextClientId = d.nextClientId := by
    rw [h]
    omega
  simp [Impl.assignedBy, hne]

/-- C15 (amended): in every reachable state in which at most `2 ^ 32 - 1` ids
have been assigned so far, every id assigned by a successful CREATE_ROOM or
JOIN_ROOM is strictly greater than every id assigned before it (the ids are
1, 2, 3, ... in order of assignment), every member carries an id assigned in
this run, and the ids of all members of all rooms are pairwise distinct, also
after disconnects. -/
theorem ids_increase_until_wrap (peer : Handle → HostAddress) (d : Impl) (ids : List Nat)
    (h : Reachable peer anyEvent d ids) (hlen : ids.length < 2 ^ 32) :
    ids.Pairwise (fun later earlier => earlier < later)
      ∧ (∀ x ∈ ids, 1 ≤ x ∧ x ≤ ids.length)
      ∧ d.nextClientId = (ids.length + 1) % 2 ^ 32
      ∧ (∀ c ∈ d.members, c.id ∈ ids)
      ∧ (d.members.map (fun c => c.id)).Nodup := by
  induction h with
  | init =>
    simp [Impl.init, Impl.members, Rooms.allMembers]
  | listened =>
    simp [Impl.init, Impl.listen, Impl.members, Rooms.assign, Rooms.find, Rooms.allMembers]
  | step d d2 ids e _ hok hs ih =>
    rcases step_effect peer d d2 e hs with ⟨hm, hn, -⟩ | ⟨tcp, hm, -, hn⟩ |
      ⟨u, tcp, data, L1, old, L2, rfl, e1, e2, -, hn⟩ | ⟨A, P, L1, c, L2, e1, hc, hno, e2, -, hn⟩
    · rw [assignedBy_same d d2 hn] at hlen ⊢
      simp only [List.nil_append] at hlen ⊢
      obtain ⟨i1, i2, i3, i4, i5⟩ := ih hlen
      exact ⟨i1, i2, by rw [hn]; exact i3, by rw [hm]; exact i4, by rw [hm]; exact i5⟩
    · rw [assignedBy_same d d2 hn] at hlen ⊢
      simp only [List.nil_append] at hlen ⊢
      obtain ⟨i1, i2, i3, i4, i5⟩ := ih hlen
      refine ⟨i1, i2, by rw [hn]; exact i3, ?_, ?_⟩
      · rw [hm]; intro c hc; exact i4 c (List.mem_of_mem_filter hc)
      · rw [hm]; exact i5.sublist ((List.filter_sublist _).map _)
    · have hlen0 : ids.length < 2 ^ 32 := by
        have : ids.length ≤ (d.assignedBy d2 ++ ids).length := by simp
        omega
      obtain ⟨i1, i2, i3, i4, i5⟩ := ih hlen0
      rw [assignedBy_next d d2 hn] at hlen ⊢
      simp only [List.singleton_append, List.length_cons] at hlen ⊢
      have hnext : d.nextClientId = ids.length + 1 := by
        rw [i3]; exact Nat.mod_eq_of_lt (by omega)
      refine ⟨?_, ?_, ?_, ?_, ?_⟩
      · refine List.pairwise_cons.mpr ⟨?_, i1⟩
        intro x hx
        have := (i2 x hx).2
        omega
      · intro x hx
        rcases List.mem_cons.mp hx with rfl | hx
        · omega
        · have := i2 x hx
          omega
      · rw [hn, hnext]
      · rw [e2]
        intro c hc
        rcases List.mem_append.mp hc with hc | hc
        · exact List.mem_cons_of_mem _ (i4 c (by rw [e1]; simp [hc]))
        · rcases List.mem_cons.mp hc with rfl | hc
          · simp
          · exact List.mem_cons_of_mem _ (i4 c (by rw [e1]; simp [hc]))
      · rw [e2]; rw [e1] at i5
        rw [List.map_append, List.map_cons]
        rw [List.map_append, List.map_append] at i5
        apply nodup_insert_middle _ (old.map (fun c => c.id)) _ _ i5
        intro hmem
        rw [← List.map_append, List.mem_map] at hmem
        obtain ⟨m, hm, hme⟩ := hmem
        have hm2 : m ∈ d.members := by
          rw [e1]
          rcases List.mem_append.mp hm with hm | hm
          · simp [hm]
          · simp [hm]
        have := (i2 m.id (i4 m hm2)).2
        simp only at hme
        omega
    · rw [assignedBy_same d d2 hn] at hlen ⊢
      simp only [List.nil_append] at hlen ⊢
      obtain ⟨i1, i2, i3, i4, i5⟩ := ih hlen
      refine ⟨i1, i2, by rw [hn]; exact i3, ?_, ?_⟩
      · rw [e2]; rw [e1] at i4
        intro m hm
        rcases List.mem_append.mp hm with hm | hm
        · exact i4 m (by simp [hm])
        · rcases List.mem_cons.mp hm with rfl | hm
          · exact i4 c (by simp)
          · exact i4 m (by simp [hm])
      · rw [e2]; rw [e1] at i5
        simpa [Client.learn] using i5
  | reorder d rooms2 ids _ hp ih =>
    obtain ⟨i1, i2, i3, i4, i5⟩ := ih hlen
    refine ⟨i1, i2, i3, ?_, ?_⟩
    · intro c hc
      exact i4 c ((members_reorder d rooms2 hp).mem_iff.mpr hc)
    · exact (((members_reorder d rooms2 hp).map _).nodup_iff).mp i5


theorem Reachable.step_to (peer : Handle → HostAddress) (ok : Impl → Event → Prop)
    (d d2 : Impl) (ids ids2 : List Nat) (e : Event)
    (h : Reachable peer ok d ids) (hok : ok d e) (hs : d.step peer e = .returns d2)
    (hids : ids2 = d.assignedBy d2 ++ ids) : Reachable peer ok d2 ids2 := by
  subst hids
  exact Reachable.step d d2 ids e h hok hs

theorem Reachable.mono (peer : Handle → HostAddress) (ok1 ok2 : Impl → Event → Prop)
    (hmono : ∀ d e, ok1 d e → ok2 d e) (d : Impl) (ids : List Nat)
    (h : Reachable peer ok1 d ids) : Reachable peer ok2 d ids := by
  induction h with
  | init => exact Reachable.init
  | listened => exact Reachable.listened
  | step d d2 ids e _ hok hs ih => exact Reachable.step d d2 ids e ih (hmono d e hok) hs
  | reorder d rooms2 ids _ hp ih => exact Reachable.reorder d rooms2 ids ih hp

/-- The example run: connect 11, CREATE_ROOM(7), connect 12, JOIN_ROOM(7), connect
13, JOIN_ROOM(7), connect 14, then one datagram from port 4000 and one from
port 4001 of the address all connections share.  Every connect is fresh and
every request comes from a pending connection. -/
theorem exampleRun_reachable (ok : Impl → Event → Prop)
    (hok : ∀ d e, orderly d e → ok d e) :
    Reachable natPeer ok exampleRun [3, 2, 1] := by
  have s0 : Reachable natPeer ok Impl.init.listen [] := Reachable.listened
  have s1 := Reachable.step_to natPeer ok _
    { pending := [11], rooms := [(0, Room.mk 0 [])], nextClientId := 1 } _ [] (.connect 11) s0
    (hok _ _ ⟨by simp only [freshConnect]; decide, by simp only [fromPending]⟩) (by decide)
    (by decide)
  have s2 := Reachable.step_to natPeer ok _
    { pending := [], rooms := [(7, Room.mk 7 [Client.mk 11 none 0 1]), (0, Room.mk 0 [])],
      nextClientId := 2 } _ [1]
    (.packet ⟨0, 0⟩ 11 (createRoomRequest 7 1).toBytes) s1
    (hok _ _ ⟨by simp only [freshConnect], Or.inl (by decide)⟩) (by decide) (by decide)
  have s3 := Reachable.step_to natPeer ok _
    { pending := [12], rooms := [(7, Room.mk 7 [Client.mk 11 none 0 1]), (0, Room.mk 0 [])],
      nextClientId := 2 } _ [1] (.connect 12) s2
    (hok _ _ ⟨by simp only [freshConnect]; decide, by simp only [fromPending]⟩) (by decide)
    (by decide)
  have s4 := Reachable.step_to natPeer ok _
    { pending := [],
      rooms := [(7, Room.mk 7 [Client.mk 11 none 0 1, Client.mk 12 none 0 2]),
                (0, Room.mk 0 [])],
      nextClientId := 3 } _ [2, 1]
    (.packet ⟨0, 0⟩ 12 (joinEmptyName 7 1).toBytes) s3
    (hok _ _ ⟨by simp only [freshConnect], Or.inl (by decide)⟩) (by decide) (by decide)
  have s5 := Reachable.step_to natPeer ok _
    { pending := [13],
      rooms := [(7, Room.mk 7 [Client.mk 11 none 0 1, Client.mk 12 none 0 2]),
                (0, Room.mk 0 [])],
      nextClientId := 3 } _ [2, 1] (.connect 13) s4
    (hok _ _ ⟨by simp only [freshConnect]; decide, by simp only [fromPending]⟩) (by decide)
    (by decide)
  have s6 := Reachable.step_to natPeer ok _
    { pending := [],
      rooms := [(7, Room.mk 7 [Client.mk 11 none 0 1, Client.mk 12 none 0 2,
                               Client.mk 13 none 0 3]),
                (0, Room.mk 0 [])],
      nextClientId := 4 } _ [3, 2, 1]
    (.packet ⟨0, 0⟩ 13 (joinEmptyName 7 1).toBytes) s5
    (hok _ _ ⟨by simp only [freshConnect], Or.inl (by decide)⟩) (by decide) (by decide)
  have s7 := Reachable.step_to natPeer ok _
    { pending := [14],
      rooms := [(7, Room.mk 7 [Client.mk 11 none 0 1, Client.mk 12 none 0 2,
                               Client.mk 13 none 0 3]),
                (0, Room.mk 0 [])],
      nextClientId := 4 } _ [3, 2, 1] (.connect 14) s6
    (hok _ _ ⟨by simp only [freshConnect]; decide, by simp only [fromPending]⟩) (by decide)
    (by decide)
  have s8 := Reachable.step_to natPeer ok _
    { pending := [14],
      rooms := [(7, Room.mk 7 [Client.mk 11 (some 90) 4000 1, Client.mk 12 none 0 2,
                               Client.mk 13 none 0 3]),
                (0, Room.mk 0 [])],
      nextClientId := 4 } _ [3, 2, 1] (.datagram ⟨0, 0⟩ exampleFirstVoice) s7
    (hok _ _ ⟨by simp only [freshConnect], by simp only [fromPending]⟩) (by decide)
    (by decide)
  exact Reachable.step_to natPeer ok _ exampleRun _ [3, 2, 1]
    (.datagram ⟨0, 0⟩ exampleSecondVoice) s8
    (hok _ _ ⟨by simp only [freshConnect], by simp only [fromPending]⟩) (by decide)
    (by decide)

/-- C15 (witness): the example run assigned the ids 1, 2 and 3, in this order. -/
theorem ids_increase_until_wrap_witness :
    ([3, 2, 1] : List Nat).Pairwise (fun later earlier => earlier < later)
      ∧ (exampleRun.members.map (fun c => c.id)).Nodup
      ∧ exampleRun.members.map (fun c => c.id) = [1, 2, 3] :=
  ⟨(ids_increase_until_wrap natPeer exampleRun [3, 2, 1]
      (exampleRun_reachable anyEvent (fun _ _ _ => trivial)) (by decide)).1,
   (ids_increase_until_wrap natPeer exampleRun [3, 2, 1]
      (exampleRun_reachable anyEvent (fun _ _ _ => trivial)) (by decide)).2.2.2.2,
   by decide⟩

/-- C16 (witness): in the example run handle 14 is pending and the members have
the handles 11, 12 and 13, none of which is pending. -/
theorem pending_not_member_witness :
    exampleRun.pending = [14]
      ∧ (Client.mk 11 (some 90) 4000 1).tcp ∉ exampleRun.pending
      ∧ (Client.mk 12 (some 90) 4001 2).tcp ∉ exampleRun.pending
      ∧ (Client.mk 13 none 0 3).tcp ∉ exampleRun.pending :=
  ⟨rfl,
   pending_not_member natPeer exampleRun [3, 2, 1]
     (exampleRun_reachable freshConnect (fun _ _ h => h.1)) (Client.mk 11 (some 90) 4000 1)
     (by decide),
   pending_not_member natPeer exampleRun [3, 2, 1]
     (exampleRun_reachable freshConnect (fun _ _ h => h.1)) (Client.mk 12 (some 90) 4001 2)
     (by decide),
   pending_not_member natPeer exampleRun [3, 2, 1]
     (exampleRun_reachable freshConnect (fun _ _ h => h.1)) (Client.mk 13 none 0 3)
     (by decide)⟩

/-- C20 (witness): in the example run two members have learned endpoints at the
same address, with the ports 4000 and 4001; the skip test for the first of them
keeps the two other members of room 7. -/
theorem learned_endpoints_distinct_witness :
    ((exampleRun.members.filter Client.hasUdpEndpoint).map
        (fun c => (c.udpAddress, c.udpPort))).Nodup
      ∧ (exampleRun.members.filter Client.hasUdpEndpoint).map
          (fun c => (c.udpAddress, c.udpPort)) = [(some 90, 4000), (some 90, 4001)]
      ∧ [Client.mk 11 (some 90) 4000 1, Client.mk 12 (some 90) 4001 2,
          Client.mk 13 none 0 3].filter (fun m => !(m.atEndpoint (some 90) 4000))
          = [Client.mk 12 (some 90) 4001 2, Client.mk 13 none 0 3] :=
  ⟨(learned_endpoints_distinct natPeer exampleRun [3, 2, 1]
      (exampleRun_reachable anyEvent (fun _ _ _ => trivial))).1,
   by decide,
   ((learned_endpoints_distinct natPeer exampleRun [3, 2, 1]
      (exampleRun_reachable anyEvent (fun _ _ _ => trivial))).2
      (7, Room.mk 7 [Client.mk 11 (some 90) 4000 1, Client.mk 12 (some 90) 4001 2,
                     Client.mk 13 none 0 3])
      (by decide) [] [Client.mk 12 (some 90) 4001 2, Client.mk 13 none 0 3]
      (Client.mk 11 (some 90) 4000 1) rfl rfl).2⟩

/-- One more CREATE_ROOM(5) from handle 2 in the long run. -/
theorem wrapBase_step (m n : Nat) (ids : List Nat)
    (h : Reachable natPeer freshConnect (wrapBase m n) ids) :
    ∃ ids2, Reachable natPeer freshConnect (wrapBase n ((n + 1) % 2 ^ 32)) ids2 := by
  refine ⟨_, Reachable.step (wrapBase m n) (wrapBase n ((n + 1) % 2 ^ 32)) ids
    (.packet ⟨0, 0⟩ 2 (createRoomRequest 5 0).toBytes) h (by simp only [freshConnect]) ?_⟩
  have hc := handlePacket_create ⟨0, 0⟩ (wrapBase m n) 2 (createRoomRequest 5 0).toBytes []
    (createRoomRequest 5 0) { roomId := 5 } (by decide) rfl
  simp only [Impl.step, hc]
  simp [wrapBase, pendingErase, Rooms.assign, Rooms.find, Rooms.replace]

/-- The long run after `k` more CREATE_ROOM(5) requests from handle 2. -/
theorem wrapBase_iterate (k : Nat) :
    ∀ (m n : Nat) (ids : List Nat), n < 2 ^ 32 →
      Reachable natPeer freshConnect (wrapBase m n) ids →
      ∃ m2 ids2, Reachable natPeer freshConnect (wrapBase m2 ((n + k) % 2 ^ 32)) ids2 := by
  induction k with
  | zero =>
    intro m n ids hn h
    exact ⟨m, ids, by rw [Nat.add_zero, Nat.mod_eq_of_lt hn]; exact h⟩
  | succ k ih =>
    intro m n ids hn h
    obtain ⟨m2, ids2, h2⟩ := ih m n ids hn h
    obtain ⟨ids3, h3⟩ := wrapBase_step m2 ((n + k) % 2 ^ 32) ids2 h2
    refine ⟨(n + k) % 2 ^ 32, ids3, ?_⟩
    have e : ((n + k) % 2 ^ 32 + 1) % 2 ^ 32 = (n + (k + 1)) % 2 ^ 32 := by omega
    rw [← e]; exact h3

/-- C15 (counterexample): handle 1 joins room 0 and gets id 1; handle 2 creates
room 5 once and then `2 ^ 32 - 2` more times, which wraps the 32-bit counter
back to 1; handle 3 joins room 0 and gets id 1 as well.  The state is reached
with room 5 visited first and also with room 0 visited first. -/
theorem ids_repeat_after_wrap :
    ∃ m ids, Reachable natPeer freshConnect (wrapState m) ids
      ∧ Reachable natPeer freshConnect
          { wrapState m with rooms := (wrapState m).rooms.reverse } ids
      ∧ (wrapState m).rooms.find 0
          = some (Room.mk 0 [Client.mk 1 none 0 1, Client.mk 3 none 0 1])
      ∧ ¬ ((wrapState m).members.map (fun c => c.id)).Nodup := by
  have s0 : Reachable natPeer freshConnect Impl.init.listen [] := Reachable.listened
  have s1 := Reachable.step_to natPeer freshConnect _
    { pending := [1], rooms := [(0, Room.mk 0 [])], nextClientId := 1 } _ [] (.connect 1) s0
    (by simp only [freshConnect]; decide) (by decide) (by decide)
  have s2 := Reachable.step_to natPeer freshConnect _
    { pending := [], rooms := [(0, Room.mk 0 [Client.mk 1 none 0 1])], nextClientId := 2 } _ [1]
    (.packet ⟨0, 0⟩ 1 (joinEmptyName 0 0).toBytes) s1 (by simp only [freshConnect])
    (by decide) (by decide)
  have s3 := Reachable.step_to natPeer freshConnect _
    { pending := [2], rooms := [(0, Room.mk 0 [Client.mk 1 none 0 1])], nextClientId := 2 } _ [1]
    (.connect 2) s2 (by simp only [freshConnect]; decide) (by decide) (by decide)
  have s4 : Reachable natPeer freshConnect (wrapBase 2 3) [2, 1] :=
    Reachable.step_to natPeer freshConnect _ (wrapBase 2 3) _ [2, 1]
      (.packet ⟨0, 0⟩ 2 (createRoomRequest 5 0).toBytes) s3 (by simp only [freshConnect])
      (by decide) (by decide)
  obtain ⟨m, ids, s5⟩ := wrapBase_iterate (2 ^ 32 - 2) 2 3 [2, 1] (by norm_num) s4
  have e : (3 + (2 ^ 32 - 2)) % 2 ^ 32 = 1 := by norm_num
  rw [e] at s5
  have s6 : Reachable natPeer freshConnect
      { pending := [3], rooms := (wrapBase m 1).rooms, nextClientId := 1 } ids := by
    refine Reachable.step_to natPeer freshConnect (wrapBase m 1) _ ids ids (.connect 3) s5
      ?_ ?_ ?_
    · simp only [freshConnect]
      simp [wrapBase, Impl.members, Rooms.allMembers]
    · simp [Impl.step, Impl.newConnection, pendingInsert, wrapBase]
    · simp [Impl.assignedBy, wrapBase]
  have s7 : Reachable natPeer freshConnect (wrapState m)
      (Impl.assignedBy { pending := [3], rooms := (wrapBase m 1).rooms, nextClientId := 1 }
        (wrapState m) ++ ids) := by
    refine Reachable.step _ (wrapState m) ids (.packet ⟨0, 0⟩ 3 (joinEmptyName 0 0).toBytes) s6
      (by simp only [freshConnect]) ?_
    have hj := handlePacket_join_found ⟨0, 0⟩
      { pending := [3], rooms := (wrapBase m 1).rooms, nextClientId := 1 } 3
      (joinEmptyName 0 0).toBytes [] (joinEmptyName 0 0) { roomId := 0, name := .str [] }
      (Room.mk 0 [Client.mk 1 none 0 1]) (by decide) rfl (by simp [wrapBase, Rooms.find])
    simp only [Impl.step, hj]
    simp [wrapBase, wrapState, pendingErase, Rooms.modify, Room.addMember]
  exact ⟨m, _, s7, Reachable.reorder (wrapState m) _ _ s7 (List.reverse_perm _).symm,
    by simp [wrapState, Rooms.find],
    by simp [wrapState, Impl.members, Rooms.allMembers]⟩

end Sfu
